import Mathlib

/-!
Verification of the CSS selector builder and JSON round-trip utilities of
`src/05-objects-tasks.js`.

The `Builder` class of the source is embedded as a Lean structure; each of its
methods becomes a function `Builder → Option BuilderError × Builder` that
returns the error raised by the call (if any) together with the state of the
entity after the call (JavaScript field/array mutations performed before a
`throw` persist, so the post-state is returned even on error).
-/

/-- Error kinds raised by the source.  The source throws plain `Error`s with
two distinct messages; the spec names them `DuplicateFragmentError` (the
message about element/id/pseudo-element occurring more than once) and
`OrderViolationError` (the message about selector-part order). -/
inductive BuilderError where
  | duplicate
  | orderViolation
deriving DecidableEq, Repr

/-- State of the `Builder` class (`src/05-objects-tasks.js` lines 121-130).
Field names and their constructor-insertion order follow the source:
`elem`, `idTag`, `classes`, `attributes`, `pseudoClasses`, `pseudoElem`,
`order`. -/
structure Builder where
  elem : String
  idTag : String
  classes : List String
  attributes : List String
  pseudoClasses : List String
  pseudoElem : String
  order : List Nat
deriving DecidableEq, Repr

/-- `new Builder()`: every string field empty, every list empty. -/
def Builder.mkNew : Builder :=
  { elem := "", idTag := "", classes := [], attributes := [],
    pseudoClasses := [], pseudoElem := "", order := [] }

/-- The `selectorType` strings passed to `isAlreadyDefined` in the source
(the constructor `cls` stands for the source string `'class'`). -/
inductive SelectorType where
  | element
  | id
  | cls
  | attr
  | pseudoClass
  | pseudoElement
deriving DecidableEq, Repr

/-- `Builder.isAlreadyDefined` (source lines 132-150). -/
def Builder.isAlreadyDefined (b : Builder) (selectorType : SelectorType)
    (value : String) : Bool :=
  match selectorType with
  | .element => b.elem != ""
  | .id => b.idTag != ""
  | .cls => b.classes.contains value
  | .attr => b.attributes.contains value
  | .pseudoClass => b.pseudoClasses.contains value
  | .pseudoElement => b.pseudoElem != ""

/-- The `reduce` loop of `Builder.checkOrder` (source lines 152-161):
`res` starts at `0`; each rank `val` must satisfy `val >= res` and becomes the
new `res`, otherwise the order-violation error is thrown (`none` here). -/
def checkOrderGo (res : Nat) : List Nat → Option Nat
  | [] => some res
  | v :: rest => if res ≤ v then checkOrderGo v rest else none

/-- `Builder.checkOrder` (source lines 152-161): `none` models the thrown
`OrderViolationError`, `some r` the returned running maximum. -/
def Builder.checkOrder (b : Builder) : Option Nat :=
  checkOrderGo 0 b.order

/-- One JSON-ish view of a field value of `Builder`, as seen by
`Object.entries(this)` in `stringify`: either a string field or an array
field (string array for the fragment lists, number array for `order`). -/
inductive FieldVal where
  | str : String → FieldVal
  | strList : List String → FieldVal
  | natList : List Nat → FieldVal
deriving DecidableEq, Repr

/-- JavaScript `.length` of a field value. -/
def FieldVal.len : FieldVal → Nat
  | .str s => s.length
  | .strList l => l.length
  | .natList l => l.length

/-- Effect of `Array.prototype.flat()` followed by `join('')` element
collection on one pushed entry value: a string stays a one-element list, an
array is spread (numbers would be stringified by `join`). -/
def FieldVal.flatten : FieldVal → List String
  | .str s => [s]
  | .strList l => l
  | .natList l => l.map (fun n => toString n)

/-- `Object.entries(this)` for a `Builder`: own enumerable properties in
constructor-insertion order (source lines 122-130). -/
def Builder.entriesList (b : Builder) : List (String × FieldVal) :=
  [("elem", .str b.elem), ("idTag", .str b.idTag),
   ("classes", .strList b.classes), ("attributes", .strList b.attributes),
   ("pseudoClasses", .strList b.pseudoClasses),
   ("pseudoElem", .str b.pseudoElem), ("order", .natList b.order)]

/-- `Builder.stringify` (source lines 163-170): keep the entries with
`length > 0` whose key is not `'order'`, flatten, join with no separator. -/
def Builder.stringify (b : Builder) : String :=
  String.join
    (((b.entriesList.filter
        (fun e => decide (0 < e.2.len) && e.1 != "order")).map
      (fun e => e.2.flatten)).flatten)

/-- `Builder.element` (source lines 172-180).  The duplicate check runs
first; the field assignment and the `order.push(1)` happen before
`checkOrder`, so they persist when the order check throws. -/
def Builder.element (b : Builder) (value : String) :
    Option BuilderError × Builder :=
  if b.isAlreadyDefined .element "" then
    (some .duplicate, b)
  else
    let b2 : Builder := { b with elem := value, order := b.order ++ [1] }
    match b2.checkOrder with
    | some _ => (none, b2)
    | none => (some .orderViolation, b2)

/-- `Builder.id` (source lines 182-190): stores the pre-formatted
`"#" + value`. -/
def Builder.id (b : Builder) (value : String) :
    Option BuilderError × Builder :=
  if b.isAlreadyDefined .id "" then
    (some .duplicate, b)
  else
    let b2 : Builder := { b with idTag := "#" ++ value, order := b.order ++ [2] }
    match b2.checkOrder with
    | some _ => (none, b2)
    | none => (some .orderViolation, b2)

/-- `Builder.class` (source lines 192-197, named `cls` here because `class`
is a Lean keyword): no duplicate check, pushes the pre-formatted
`"." + value`, then pushes rank 3 and checks order. -/
def Builder.cls (b : Builder) (value : String) :
    Option BuilderError × Builder :=
  let b2 : Builder := { b with classes := b.classes ++ ["." ++ value],
                               order := b.order ++ [3] }
  match b2.checkOrder with
  | some _ => (none, b2)
  | none => (some .orderViolation, b2)

/-- `Builder.attr` (source lines 199-204): pushes `"[" + value + "]"`,
rank 4. -/
def Builder.attr (b : Builder) (value : String) :
    Option BuilderError × Builder :=
  let b2 : Builder := { b with attributes := b.attributes ++ ["[" ++ value ++ "]"],
                               order := b.order ++ [4] }
  match b2.checkOrder with
  | some _ => (none, b2)
  | none => (some .orderViolation, b2)

/-- `Builder.pseudoClass` (source lines 206-211): pushes `":" + value`,
rank 5. -/
def Builder.pseudoClass (b : Builder) (value : String) :
    Option BuilderError × Builder :=
  let b2 : Builder := { b with pseudoClasses := b.pseudoClasses ++ [":" ++ value],
                               order := b.order ++ [5] }
  match b2.checkOrder with
  | some _ => (none, b2)
  | none => (some .orderViolation, b2)

/-- `Builder.pseudoElement` (source lines 213-221): duplicate check first,
stores `"::" + value`, rank 6. -/
def Builder.pseudoElement (b : Builder) (value : String) :
    Option BuilderError × Builder :=
  if b.isAlreadyDefined .pseudoElement "" then
    (some .duplicate, b)
  else
    let b2 : Builder := { b with pseudoElem := "::" ++ value,
                                 order := b.order ++ [6] }
    match b2.checkOrder with
    | some _ => (none, b2)
    | none => (some .orderViolation, b2)

/-- One fragment-adding call, with its string argument. -/
inductive Op where
  | element (value : String)
  | id (value : String)
  | cls (value : String)
  | attr (value : String)
  | pseudoClass (value : String)
  | pseudoElement (value : String)
deriving DecidableEq, Repr

/-- Category rank of a call (spec: element=1, id=2, class=3, attribute=4,
pseudo-class=5, pseudo-element=6; these are the ranks the source pushes). -/
def Op.rank : Op → Nat
  | .element _ => 1
  | .id _ => 2
  | .cls _ => 3
  | .attr _ => 4
  | .pseudoClass _ => 5
  | .pseudoElement _ => 6

/-- Dispatch one call to the corresponding method. -/
def applyOp : Op → Builder → Option BuilderError × Builder
  | .element v, b => b.element v
  | .id v, b => b.id v
  | .cls v, b => b.cls v
  | .attr v, b => b.attr v
  | .pseudoClass v, b => b.pseudoClass v
  | .pseudoElement v, b => b.pseudoElement v

/-- Whether a call would be rejected by the duplicate check of the source
(`element`/`id`/`pseudoElement` with the field already set; the list
categories have no duplicate check). -/
def dupBlocked (op : Op) (b : Builder) : Bool :=
  match op with
  | .element _ => b.isAlreadyDefined .element ""
  | .id _ => b.isAlreadyDefined .id ""
  | .pseudoElement _ => b.isAlreadyDefined .pseudoElement ""
  | _ => false

/-- Run a sequence of calls keeping the post-state of every call even when it
throws (the JavaScript heap state after each call, errors caught by the
caller). -/
def runOps (ops : List Op) (b : Builder) : Builder :=
  ops.foldl (fun acc op => (applyOp op acc).2) b

/-- Run a chained sequence of calls that aborts at the first thrown error
(uncaught-exception semantics): `some` of the final builder when every call
succeeds, `none` otherwise. -/
def chainOk : List Op → Builder → Option Builder
  | [], b => some b
  | op :: ops, b =>
    match applyOp op b with
    | (none, b2) => chainOk ops b2
    | (some _, _) => none

/-- The value returned by `cssSelectorBuilder.combine` (source lines
249-256): it stores the already-joined `result` string and renders it. -/
structure Combined where
  result : String
deriving DecidableEq, Repr

/-- The `stringify` method of a combine result returns the stored string. -/
def Combined.stringify (c : Combined) : String :=
  c.result

/-- Anything with a `stringify()` method that `combine` accepts: a `Builder`
or a previous combine result. -/
inductive Renderable where
  | builder (b : Builder)
  | combined (c : Combined)
deriving DecidableEq, Repr

/-- Virtual dispatch of `.stringify()` on a renderable value. -/
def Renderable.stringify : Renderable → String
  | .builder b => b.stringify
  | .combined c => c.stringify

/-- `cssSelectorBuilder.combine` (source lines 249-256): calls `stringify()`
on both operands at combine time and stores
`` `${s1} ${combinator} ${s2}` ``. -/
def combine (selector1 : Renderable) (combinator : String)
    (selector2 : Renderable) : Renderable :=
  .combined ⟨selector1.stringify ++ " " ++ combinator ++ " " ++
             selector2.stringify⟩

/-- State-passing view of a `stringify()` method call: the returned string
together with the receiver afterwards.  The source method body (lines
163-170) only reads fields — it contains no assignment and no `throw` — so
the receiver is returned unchanged and there is no error component. -/
def Builder.stringifyCall (b : Builder) : String × Builder :=
  (b.stringify, b)

-- ### Basic lemmas about `String.join` and `stringify`

theorem strJoin_foldl (l : List String) :
    ∀ a : String, List.foldl (fun x y => x ++ y) a l = a ++ String.join l := by
  induction l with
  | nil => intro a; simp [String.join]
  | cons t l ih =>
    intro a
    show List.foldl (fun x y => x ++ y) (a ++ t) l = _
    rw [ih (a ++ t)]
    show _ = a ++ List.foldl (fun x y => x ++ y) ("" ++ t) l
    rw [ih ("" ++ t)]
    simp [String.append_assoc]

theorem strJoin_cons (s : String) (l : List String) :
    String.join (s :: l) = s ++ String.join l := by
  show List.foldl (fun x y => x ++ y) ("" ++ s) l = _
  rw [strJoin_foldl]
  simp

theorem strJoin_append (l1 l2 : List String) :
    String.join (l1 ++ l2) = String.join l1 ++ String.join l2 := by
  induction l1 with
  | nil => simp [String.join]
  | cons t l ih => simp [strJoin_cons, ih, String.append_assoc]

theorem strJoin_nil : String.join [] = "" := rfl

theorem str_empty_of_len_zero (s : String) (h : ¬ 0 < s.length) : s = "" := by
  apply String.ext
  have : s.length = 0 := by omega
  exact List.length_eq_zero.mp this

/-- `stringify` is the plain concatenation of all six fragment fields in
constructor order; the `length > 0` filter of the source only drops
fragments that would contribute the empty string anyway. -/
theorem Builder.stringify_eq_concat (b : Builder) :
    b.stringify = b.elem ++ b.idTag ++ String.join b.classes ++
      String.join b.attributes ++ String.join b.pseudoClasses ++
      b.pseudoElem := by
  unfold Builder.stringify Builder.entriesList
  by_cases h1 : 0 < b.elem.length <;>
    by_cases h2 : 0 < b.idTag.length <;>
    by_cases h3 : 0 < b.classes.length <;>
    by_cases h4 : 0 < b.attributes.length <;>
    by_cases h5 : 0 < b.pseudoClasses.length <;>
    by_cases h6 : 0 < b.pseudoElem.length <;>
    (simp only [List.filter, FieldVal.len, h1, h2, h3, h4, h5, h6,
        decide_True, decide_False, Bool.true_and, Bool.false_and,
        List.map, List.flatten, FieldVal.flatten] <;>
     (try rw [str_empty_of_len_zero _ h1]) <;>
     (try rw [str_empty_of_len_zero _ h2]) <;>
     (try rw [str_empty_of_len_zero _ h6]) <;>
     (try rw [List.length_eq_zero.mp (by omega : b.classes.length = 0)]) <;>
     (try rw [List.length_eq_zero.mp (by omega : b.attributes.length = 0)]) <;>
     (try rw [List.length_eq_zero.mp (by omega : b.pseudoClasses.length = 0)]) <;>
     simp [strJoin_cons, strJoin_append, strJoin_nil, String.append_assoc])

-- ### Per-operation equations

theorem checkOrder_update (b : Builder) (l : List Nat) (e i pe : String)
    (c a p : List String) :
    Builder.checkOrder { elem := e, idTag := i, classes := c, attributes := a, pseudoClasses := p, pseudoElem := pe, order := l } = checkOrderGo 0 l := rfl

theorem element_of_defined (b : Builder) (v : String) (h : b.elem ≠ "") :
    b.element v = (some BuilderError.duplicate, b) := by
  simp only [Builder.element, Builder.isAlreadyDefined]
  rw [if_pos (by simp [h])]

theorem element_of_empty (b : Builder) (v : String) (h : b.elem = "") :
    b.element v =
      (if Builder.checkOrder { b with elem := v, order := b.order ++ [1] } = none
         then some BuilderError.orderViolation else none,
       { b with elem := v, order := b.order ++ [1] }) := by
  simp only [Builder.element, Builder.isAlreadyDefined, h]
  rw [if_neg (by simp)]
  split <;> rename_i hc <;> simp [hc]

theorem id_of_defined (b : Builder) (v : String) (h : b.idTag ≠ "") :
    b.id v = (some BuilderError.duplicate, b) := by
  simp only [Builder.id, Builder.isAlreadyDefined]
  rw [if_pos (by simp [h])]

theorem id_of_empty (b : Builder) (v : String) (h : b.idTag = "") :
    b.id v =
      (if Builder.checkOrder { b with idTag := "#" ++ v, order := b.order ++ [2] } = none
         then some BuilderError.orderViolation else none,
       { b with idTag := "#" ++ v, order := b.order ++ [2] }) := by
  simp only [Builder.id, Builder.isAlreadyDefined, h]
  rw [if_neg (by simp)]
  split <;> rename_i hc <;> simp [hc]

theorem pseudoElement_of_defined (b : Builder) (v : String) (h : b.pseudoElem ≠ "") :
    b.pseudoElement v = (some BuilderError.duplicate, b) := by
  simp only [Builder.pseudoElement, Builder.isAlreadyDefined]
  rw [if_pos (by simp [h])]

theorem pseudoElement_of_empty (b : Builder) (v : String) (h : b.pseudoElem = "") :
    b.pseudoElement v =
      (if Builder.checkOrder { b with pseudoElem := "::" ++ v, order := b.order ++ [6] } = none
         then some BuilderError.orderViolation else none,
       { b with pseudoElem := "::" ++ v, order := b.order ++ [6] }) := by
  simp only [Builder.pseudoElement, Builder.isAlreadyDefined, h]
  rw [if_neg (by simp)]
  split <;> rename_i hc <;> simp [hc]

theorem cls_eq (b : Builder) (v : String) :
    b.cls v =
      (if Builder.checkOrder { b with classes := b.classes ++ ["." ++ v], order := b.order ++ [3] } = none
         then some BuilderError.orderViolation else none,
       { b with classes := b.classes ++ ["." ++ v], order := b.order ++ [3] }) := by
  simp only [Builder.cls]
  split <;> rename_i hc <;> simp [hc]

theorem attr_eq (b : Builder) (v : String) :
    b.attr v =
      (if Builder.checkOrder { b with attributes := b.attributes ++ ["[" ++ v ++ "]"], order := b.order ++ [4] } = none
         then some BuilderError.orderViolation else none,
       { b with attributes := b.attributes ++ ["[" ++ v ++ "]"], order := b.order ++ [4] }) := by
  simp only [Builder.attr]
  split <;> rename_i hc <;> simp [hc]

theorem pseudoClass_eq (b : Builder) (v : String) :
    b.pseudoClass v =
      (if Builder.checkOrder { b with pseudoClasses := b.pseudoClasses ++ [":" ++ v], order := b.order ++ [5] } = none
         then some BuilderError.orderViolation else none,
       { b with pseudoClasses := b.pseudoClasses ++ [":" ++ v], order := b.order ++ [5] }) := by
  simp only [Builder.pseudoClass]
  split <;> rename_i hc <;> simp [hc]

-- ### Lemmas about the order check

theorem checkOrderGo_append_ok {l : List Nat} :
    ∀ {r m x : Nat}, checkOrderGo r l = some m → m ≤ x →
      checkOrderGo r (l ++ [x]) = some x := by
  induction l with
  | nil =>
    intro r m x h hx
    simp only [checkOrderGo] at h
    cases h
    simp only [List.nil_append, checkOrderGo]
    rw [if_pos hx]
  | cons v l ih =>
    intro r m x h hx
    simp only [checkOrderGo] at h
    by_cases hrv : r ≤ v
    · rw [if_pos hrv] at h
      simp only [List.cons_append, checkOrderGo]
      rw [if_pos hrv]
      exact ih h hx
    · rw [if_neg hrv] at h
      cases h

theorem checkOrderGo_append_bad {l : List Nat} :
    ∀ {r m x : Nat}, checkOrderGo r l = some m → x < m →
      checkOrderGo r (l ++ [x]) = none := by
  induction l with
  | nil =>
    intro r m x h hx
    simp only [checkOrderGo] at h
    cases h
    simp only [List.nil_append, checkOrderGo]
    rw [if_neg (by omega)]
  | cons v l ih =>
    intro r m x h hx
    simp only [checkOrderGo] at h
    by_cases hrv : r ≤ v
    · rw [if_pos hrv] at h
      simp only [List.cons_append, checkOrderGo]
      rw [if_pos hrv]
      exact ih h hx
    · rw [if_neg hrv] at h
      cases h

theorem checkOrderGo_append_none {l : List Nat} :
    ∀ {r x : Nat}, checkOrderGo r l = none → checkOrderGo r (l ++ [x]) = none := by
  induction l with
  | nil =>
    intro r x h
    simp only [checkOrderGo] at h
    exact Option.noConfusion h
  | cons v l ih =>
    intro r x h
    simp only [checkOrderGo] at h
    by_cases hrv : r ≤ v
    · rw [if_pos hrv] at h
      simp only [List.cons_append, checkOrderGo]
      rw [if_pos hrv]
      exact ih h
    · simp only [List.cons_append, checkOrderGo]
      rw [if_neg hrv]

-- ### Shapes of the post-state of a single call

theorem element_snd (b : Builder) (v : String) :
    (b.element v).2 =
      if b.elem = "" then { b with elem := v, order := b.order ++ [1] } else b := by
  by_cases h : b.elem = ""
  · rw [element_of_empty b v h, if_pos h]
  · rw [element_of_defined b v h, if_neg h]

theorem id_snd (b : Builder) (v : String) :
    (b.id v).2 =
      if b.idTag = "" then { b with idTag := "#" ++ v, order := b.order ++ [2] } else b := by
  by_cases h : b.idTag = ""
  · rw [id_of_empty b v h, if_pos h]
  · rw [id_of_defined b v h, if_neg h]

theorem pseudoElement_snd (b : Builder) (v : String) :
    (b.pseudoElement v).2 =
      if b.pseudoElem = "" then { b with pseudoElem := "::" ++ v, order := b.order ++ [6] } else b := by
  by_cases h : b.pseudoElem = ""
  · rw [pseudoElement_of_empty b v h, if_pos h]
  · rw [pseudoElement_of_defined b v h, if_neg h]

-- ### Formatted value contributed by a call to each list category

def clsFmt : Op → Option String
  | .cls v => some ("." ++ v)
  | _ => none

def attrFmt : Op → Option String
  | .attr v => some ("[" ++ v ++ "]")
  | _ => none

def pclsFmt : Op → Option String
  | .pseudoClass v => some (":" ++ v)
  | _ => none

theorem applyOp_classes (op : Op) (b : Builder) :
    ((applyOp op b).2).classes = b.classes ++ (clsFmt op).toList := by
  cases op <;>
    simp only [applyOp, element_snd, id_snd, pseudoElement_snd, cls_eq,
      attr_eq, pseudoClass_eq, clsFmt] <;>
    first
    | (split <;> simp)
    | simp

theorem applyOp_attributes (op : Op) (b : Builder) :
    ((applyOp op b).2).attributes = b.attributes ++ (attrFmt op).toList := by
  cases op <;>
    simp only [applyOp, element_snd, id_snd, pseudoElement_snd, cls_eq,
      attr_eq, pseudoClass_eq, attrFmt] <;>
    first
    | (split <;> simp)
    | simp

theorem applyOp_pseudoClasses (op : Op) (b : Builder) :
    ((applyOp op b).2).pseudoClasses = b.pseudoClasses ++ (pclsFmt op).toList := by
  cases op <;>
    simp only [applyOp, element_snd, id_snd, pseudoElement_snd, cls_eq,
      attr_eq, pseudoClass_eq, pclsFmt] <;>
    first
    | (split <;> simp)
    | simp

theorem runOps_classes (ops : List Op) :
    ∀ b : Builder, (runOps ops b).classes = b.classes ++ ops.filterMap clsFmt := by
  induction ops with
  | nil => intro b; simp [runOps]
  | cons op ops ih =>
    intro b
    show (runOps ops ((applyOp op b).2)).classes = _
    rw [ih, applyOp_classes]
    cases hop : clsFmt op <;> simp [List.filterMap_cons, hop]

theorem runOps_attributes (ops : List Op) :
    ∀ b : Builder, (runOps ops b).attributes = b.attributes ++ ops.filterMap attrFmt := by
  induction ops with
  | nil => intro b; simp [runOps]
  | cons op ops ih =>
    intro b
    show (runOps ops ((applyOp op b).2)).attributes = _
    rw [ih, applyOp_attributes]
    cases hop : attrFmt op <;> simp [List.filterMap_cons, hop]

theorem runOps_pseudoClasses (ops : List Op) :
    ∀ b : Builder, (runOps ops b).pseudoClasses = b.pseudoClasses ++ ops.filterMap pclsFmt := by
  induction ops with
  | nil => intro b; simp [runOps]
  | cons op ops ih =>
    intro b
    show (runOps ops ((applyOp op b).2)).pseudoClasses = _
    rw [ih, applyOp_pseudoClasses]
    cases hop : pclsFmt op <;> simp [List.filterMap_cons, hop]

-- ### Chained (uncaught-error) runs

theorem chainOk_cons_elim (op : Op) (ops : List Op) (b b' : Builder)
    (h : chainOk (op :: ops) b = some b') :
    (applyOp op b).1 = none ∧ chainOk ops ((applyOp op b).2) = some b' := by
  simp only [chainOk] at h
  cases hop : applyOp op b with
  | mk e b2 =>
    rw [hop] at h
    cases e with
    | none => exact ⟨rfl, h⟩
    | some err => exact Option.noConfusion h

theorem chainOk_eq_runOps : ∀ (ops : List Op) (b b' : Builder),
    chainOk ops b = some b' → b' = runOps ops b := by
  intro ops
  induction ops with
  | nil =>
    intro b b' h
    simp only [chainOk, Option.some.injEq] at h
    rw [← h]; rfl
  | cons op ops ih =>
    intro b b' h
    obtain ⟨h1, h2⟩ := chainOk_cons_elim op ops b b' h
    show b' = runOps ops ((applyOp op b).2)
    exact ih _ b' h2

theorem hash_ne_empty (v : String) : ("#" ++ v) ≠ "" := by
  intro h
  have h2 := congrArg String.data h
  simp at h2

theorem dcolon_ne_empty (v : String) : ("::" ++ v) ≠ "" := by
  intro h
  have h2 := congrArg String.data h
  simp at h2

theorem applyOp_idTag_of_ne (op : Op) (b : Builder) (hop : ∀ v, op ≠ Op.id v) :
    ((applyOp op b).2).idTag = b.idTag := by
  cases op with
  | id v => exact absurd rfl (hop v)
  | element v => rw [show applyOp (Op.element v) b = b.element v from rfl, element_snd]; split <;> rfl
  | cls v => rw [show applyOp (Op.cls v) b = b.cls v from rfl, cls_eq]
  | attr v => rw [show applyOp (Op.attr v) b = b.attr v from rfl, attr_eq]
  | pseudoClass v => rw [show applyOp (Op.pseudoClass v) b = b.pseudoClass v from rfl, pseudoClass_eq]
  | pseudoElement v => rw [show applyOp (Op.pseudoElement v) b = b.pseudoElement v from rfl, pseudoElement_snd]; split <;> rfl

theorem applyOp_elem_of_ne (op : Op) (b : Builder) (hop : ∀ v, op ≠ Op.element v) :
    ((applyOp op b).2).elem = b.elem := by
  cases op with
  | element v => exact absurd rfl (hop v)
  | id v => rw [show applyOp (Op.id v) b = b.id v from rfl, id_snd]; split <;> rfl
  | cls v => rw [show applyOp (Op.cls v) b = b.cls v from rfl, cls_eq]
  | attr v => rw [show applyOp (Op.attr v) b = b.attr v from rfl, attr_eq]
  | pseudoClass v => rw [show applyOp (Op.pseudoClass v) b = b.pseudoClass v from rfl, pseudoClass_eq]
  | pseudoElement v => rw [show applyOp (Op.pseudoElement v) b = b.pseudoElement v from rfl, pseudoElement_snd]; split <;> rfl

theorem applyOp_pseudoElem_of_ne (op : Op) (b : Builder) (hop : ∀ v, op ≠ Op.pseudoElement v) :
    ((applyOp op b).2).pseudoElem = b.pseudoElem := by
  cases op with
  | pseudoElement v => exact absurd rfl (hop v)
  | element v => rw [show applyOp (Op.element v) b = b.element v from rfl, element_snd]; split <;> rfl
  | id v => rw [show applyOp (Op.id v) b = b.id v from rfl, id_snd]; split <;> rfl
  | cls v => rw [show applyOp (Op.cls v) b = b.cls v from rfl, cls_eq]
  | attr v => rw [show applyOp (Op.attr v) b = b.attr v from rfl, attr_eq]
  | pseudoClass v => rw [show applyOp (Op.pseudoClass v) b = b.pseudoClass v from rfl, pseudoClass_eq]

theorem chainOk_idTag_pres : ∀ (ops : List Op) (b b' : Builder),
    chainOk ops b = some b' → b.idTag ≠ "" → b'.idTag = b.idTag := by
  intro ops
  induction ops with
  | nil =>
    intro b b' h hne
    simp only [chainOk, Option.some.injEq] at h
    rw [← h]
  | cons op ops ih =>
    intro b b' h hne
    obtain ⟨h1, h2⟩ := chainOk_cons_elim op ops b b' h
    cases op with
    | id v =>
      rw [show applyOp (Op.id v) b = b.id v from rfl, id_of_defined b v hne] at h1
      exact Option.noConfusion h1
    | element v =>
      have hp := applyOp_idTag_of_ne (Op.element v) b (by intro w hw; exact Op.noConfusion hw)
      rw [ih _ b' h2 (by rw [hp]; exact hne), hp]
    | cls v =>
      have hp := applyOp_idTag_of_ne (Op.cls v) b (by intro w hw; exact Op.noConfusion hw)
      rw [ih _ b' h2 (by rw [hp]; exact hne), hp]
    | attr v =>
      have hp := applyOp_idTag_of_ne (Op.attr v) b (by intro w hw; exact Op.noConfusion hw)
      rw [ih _ b' h2 (by rw [hp]; exact hne), hp]
    | pseudoClass v =>
      have hp := applyOp_idTag_of_ne (Op.pseudoClass v) b (by intro w hw; exact Op.noConfusion hw)
      rw [ih _ b' h2 (by rw [hp]; exact hne), hp]
    | pseudoElement v =>
      have hp := applyOp_idTag_of_ne (Op.pseudoElement v) b (by intro w hw; exact Op.noConfusion hw)
      rw [ih _ b' h2 (by rw [hp]; exact hne), hp]

theorem chainOk_elem_pres : ∀ (ops : List Op) (b b' : Builder),
    chainOk ops b = some b' → b.elem ≠ "" → b'.elem = b.elem := by
  intro ops
  induction ops with
  | nil =>
    intro b b' h hne
    simp only [chainOk, Option.some.injEq] at h
    rw [← h]
  | cons op ops ih =>
    intro b b' h hne
    obtain ⟨h1, h2⟩ := chainOk_cons_elim op ops b b' h
    cases op with
    | element v =>
      rw [show applyOp (Op.element v) b = b.element v from rfl, element_of_defined b v hne] at h1
      exact Option.noConfusion h1
    | id v =>
      have hp := applyOp_elem_of_ne (Op.id v) b (by intro w hw; exact Op.noConfusion hw)
      rw [ih _ b' h2 (by rw [hp]; exact hne), hp]
    | cls v =>
      have hp := applyOp_elem_of_ne (Op.cls v) b (by intro w hw; exact Op.noConfusion hw)
      rw [ih _ b' h2 (by rw [hp]; exact hne), hp]
    | attr v =>
      have hp := applyOp_elem_of_ne (Op.attr v) b (by intro w hw; exact Op.noConfusion hw)
      rw [ih _ b' h2 (by rw [hp]; exact hne), hp]
    | pseudoClass v =>
      have hp := applyOp_elem_of_ne (Op.pseudoClass v) b (by intro w hw; exact Op.noConfusion hw)
      rw [ih _ b' h2 (by rw [hp]; exact hne), hp]
    | pseudoElement v =>
      have hp := applyOp_elem_of_ne (Op.pseudoElement v) b (by intro w hw; exact Op.noConfusion hw)
      rw [ih _ b' h2 (by rw [hp]; exact hne), hp]

theorem chainOk_pseudoElem_pres : ∀ (ops : List Op) (b b' : Builder),
    chainOk ops b = some b' → b.pseudoElem ≠ "" → b'.pseudoElem = b.pseudoElem := by
  intro ops
  induction ops with
  | nil =>
    intro b b' h hne
    simp only [chainOk, Option.some.injEq] at h
    rw [← h]
  | cons op ops ih =>
    intro b b' h hne
    obtain ⟨h1, h2⟩ := chainOk_cons_elim op ops b b' h
    cases op with
    | pseudoElement v =>
      rw [show applyOp (Op.pseudoElement v) b = b.pseudoElement v from rfl,
        pseudoElement_of_defined b v hne] at h1
      exact Option.noConfusion h1
    | element v =>
      have hp := applyOp_pseudoElem_of_ne (Op.element v) b (by intro w hw; exact Op.noConfusion hw)
      rw [ih _ b' h2 (by rw [hp]; exact hne), hp]
    | id v =>
      have hp := applyOp_pseudoElem_of_ne (Op.id v) b (by intro w hw; exact Op.noConfusion hw)
      rw [ih _ b' h2 (by rw [hp]; exact hne), hp]
    | cls v =>
      have hp := applyOp_pseudoElem_of_ne (Op.cls v) b (by intro w hw; exact Op.noConfusion hw)
      rw [ih _ b' h2 (by rw [hp]; exact hne), hp]
    | attr v =>
      have hp := applyOp_pseudoElem_of_ne (Op.attr v) b (by intro w hw; exact Op.noConfusion hw)
      rw [ih _ b' h2 (by rw [hp]; exact hne), hp]
    | pseudoClass v =>
      have hp := applyOp_pseudoElem_of_ne (Op.pseudoClass v) b (by intro w hw; exact Op.noConfusion hw)
      rw [ih _ b' h2 (by rw [hp]; exact hne), hp]

theorem chainOk_idTag_of_mem : ∀ (ops : List Op) (b b' : Builder) (v : String),
    chainOk ops b = some b' → Op.id v ∈ ops → b'.idTag = "#" ++ v := by
  intro ops
  induction ops with
  | nil =>
    intro b b' v h hmem
    exact absurd hmem (List.not_mem_nil _)
  | cons op ops ih =>
    intro b b' v h hmem
    obtain ⟨h1, h2⟩ := chainOk_cons_elim op ops b b' h
    rcases List.mem_cons.mp hmem with heq | hmem2
    · subst heq
      by_cases hb : b.idTag = ""
      · have hsnd : ((applyOp (Op.id v) b).2).idTag = "#" ++ v := by
          rw [show applyOp (Op.id v) b = b.id v from rfl, id_snd, if_pos hb]
        rw [chainOk_idTag_pres ops _ b' h2 (by rw [hsnd]; exact hash_ne_empty v), hsnd]
      · rw [show applyOp (Op.id v) b = b.id v from rfl, id_of_defined b v hb] at h1
        exact Option.noConfusion h1
    · exact ih _ b' v h2 hmem2

theorem chainOk_pseudoElem_of_mem : ∀ (ops : List Op) (b b' : Builder) (v : String),
    chainOk ops b = some b' → Op.pseudoElement v ∈ ops → b'.pseudoElem = "::" ++ v := by
  intro ops
  induction ops with
  | nil =>
    intro b b' v h hmem
    exact absurd hmem (List.not_mem_nil _)
  | cons op ops ih =>
    intro b b' v h hmem
    obtain ⟨h1, h2⟩ := chainOk_cons_elim op ops b b' h
    rcases List.mem_cons.mp hmem with heq | hmem2
    · subst heq
      by_cases hb : b.pseudoElem = ""
      · have hsnd : ((applyOp (Op.pseudoElement v) b).2).pseudoElem = "::" ++ v := by
          rw [show applyOp (Op.pseudoElement v) b = b.pseudoElement v from rfl,
            pseudoElement_snd, if_pos hb]
        rw [chainOk_pseudoElem_pres ops _ b' h2 (by rw [hsnd]; exact dcolon_ne_empty v), hsnd]
      · rw [show applyOp (Op.pseudoElement v) b = b.pseudoElement v from rfl,
          pseudoElement_of_defined b v hb] at h1
        exact Option.noConfusion h1
    · exact ih _ b' v h2 hmem2

theorem chainOk_elem_of_mem : ∀ (ops : List Op) (b b' : Builder) (v : String),
    chainOk ops b = some b' → Op.element v ∈ ops → v ≠ "" → b'.elem = v := by
  intro ops
  induction ops with
  | nil =>
    intro b b' v h hmem hv
    exact absurd hmem (List.not_mem_nil _)
  | cons op ops ih =>
    intro b b' v h hmem hv
    obtain ⟨h1, h2⟩ := chainOk_cons_elim op ops b b' h
    rcases List.mem_cons.mp hmem with heq | hmem2
    · subst heq
      by_cases hb : b.elem = ""
      · have hsnd : ((applyOp (Op.element v) b).2).elem = v := by
          rw [show applyOp (Op.element v) b = b.element v from rfl, element_snd, if_pos hb]
        rw [chainOk_elem_pres ops _ b' h2 (by rw [hsnd]; exact hv), hsnd]
      · rw [show applyOp (Op.element v) b = b.element v from rfl, element_of_defined b v hb] at h1
        exact Option.noConfusion h1
    · exact ih _ b' v h2 hmem2 hv

/-- Claim C1: for every sequence of fragment-adding calls on one builder that
completes without error, `stringify()` returns the concatenation, in fixed
category order (element, then `"#"+id`, then the `"."+class` fragments in
insertion order, then the `"["+attribute+"]"` fragments in insertion order,
then the `":"+pseudo-class` fragments in insertion order, then
`"::"+pseudo-element`), of every present fragment's pre-formatted string with
no separator between fragments. -/
theorem claim1_stringify_concatenation (ops : List Op) (b' : Builder)
    (h : chainOk ops Builder.mkNew = some b') :
    b'.stringify = b'.elem ++ b'.idTag ++ String.join b'.classes ++
        String.join b'.attributes ++ String.join b'.pseudoClasses ++ b'.pseudoElem
    ∧ b'.classes = ops.filterMap clsFmt
    ∧ b'.attributes = ops.filterMap attrFmt
    ∧ b'.pseudoClasses = ops.filterMap pclsFmt
    ∧ (∀ v, Op.id v ∈ ops → b'.idTag = "#" ++ v)
    ∧ (∀ v, Op.pseudoElement v ∈ ops → b'.pseudoElem = "::" ++ v)
    ∧ (∀ v, Op.element v ∈ ops → v ≠ "" → b'.elem = v) := by
  have hrun := chainOk_eq_runOps ops Builder.mkNew b' h
  refine ⟨Builder.stringify_eq_concat b', ?_, ?_, ?_, ?_, ?_, ?_⟩
  · rw [hrun, runOps_classes]; rfl
  · rw [hrun, runOps_attributes]; rfl
  · rw [hrun, runOps_pseudoClasses]; rfl
  · intro v hv; exact chainOk_idTag_of_mem ops _ b' v h hv
  · intro v hv; exact chainOk_pseudoElem_of_mem ops _ b' v h hv
  · intro v hv hne; exact chainOk_elem_of_mem ops _ b' v h hv hne

/-- Claim C1 witness: the scenario `id('main').class('container').class('editable')`
completes without error and renders `"#main.container.editable"`. -/
theorem claim1_witness :
    chainOk [Op.id "main", Op.cls "container", Op.cls "editable"] Builder.mkNew
      = some (runOps [Op.id "main", Op.cls "container", Op.cls "editable"] Builder.mkNew)
    ∧ (runOps [Op.id "main", Op.cls "container", Op.cls "editable"] Builder.mkNew).stringify
      = "#main.container.editable" := by
  have h : chainOk [Op.id "main", Op.cls "container", Op.cls "editable"] Builder.mkNew
      = some (runOps [Op.id "main", Op.cls "container", Op.cls "editable"] Builder.mkNew) := by
    decide
  refine ⟨h, ?_⟩
  rw [(claim1_stringify_concatenation _ _ h).1]
  decide

-- ### Error outcome of a single call

theorem applyOp_fst_of_blocked (op : Op) (b : Builder) (hd : dupBlocked op b = true) :
    (applyOp op b).1 = some BuilderError.duplicate := by
  cases op with
  | element v =>
    have hb : b.elem ≠ "" := by
      simp [dupBlocked, Builder.isAlreadyDefined] at hd; exact hd
    rw [show applyOp (Op.element v) b = b.element v from rfl, element_of_defined b v hb]
  | id v =>
    have hb : b.idTag ≠ "" := by
      simp [dupBlocked, Builder.isAlreadyDefined] at hd; exact hd
    rw [show applyOp (Op.id v) b = b.id v from rfl, id_of_defined b v hb]
  | pseudoElement v =>
    have hb : b.pseudoElem ≠ "" := by
      simp [dupBlocked, Builder.isAlreadyDefined] at hd; exact hd
    rw [show applyOp (Op.pseudoElement v) b = b.pseudoElement v from rfl,
      pseudoElement_of_defined b v hb]
  | cls v => simp [dupBlocked] at hd
  | attr v => simp [dupBlocked] at hd
  | pseudoClass v => simp [dupBlocked] at hd

theorem applyOp_fst_of_not_blocked (op : Op) (b : Builder) (hd : dupBlocked op b = false) :
    (applyOp op b).1 =
      if checkOrderGo 0 (b.order ++ [op.rank]) = none
        then some BuilderError.orderViolation else none := by
  cases op with
  | element v =>
    have hb : b.elem = "" := by
      simp [dupBlocked, Builder.isAlreadyDefined] at hd; exact hd
    rw [show applyOp (Op.element v) b = b.element v from rfl, element_of_empty b v hb]
    rfl
  | id v =>
    have hb : b.idTag = "" := by
      simp [dupBlocked, Builder.isAlreadyDefined] at hd; exact hd
    rw [show applyOp (Op.id v) b = b.id v from rfl, id_of_empty b v hb]
    rfl
  | pseudoElement v =>
    have hb : b.pseudoElem = "" := by
      simp [dupBlocked, Builder.isAlreadyDefined] at hd; exact hd
    rw [show applyOp (Op.pseudoElement v) b = b.pseudoElement v from rfl,
      pseudoElement_of_empty b v hb]
    rfl
  | cls v =>
    rw [show applyOp (Op.cls v) b = b.cls v from rfl, cls_eq]
    rfl
  | attr v =>
    rw [show applyOp (Op.attr v) b = b.attr v from rfl, attr_eq]
    rfl
  | pseudoClass v =>
    rw [show applyOp (Op.pseudoClass v) b = b.pseudoClass v from rfl, pseudoClass_eq]
    rfl

/-- Claim C2 counterexample: on the builder reached by `element('a').class('b')`
the highest appended rank is 3, and the call `element('c')` has rank 1 < 3, yet
it raises the duplicate error, not `OrderViolationError`, because the
duplicate check runs before the rank is appended. -/
theorem claim2_counterexample :
    (Op.element "c").rank <
        ((((Builder.mkNew.element "a").2).cls "b").2).order.foldr max 0
    ∧ (((((Builder.mkNew.element "a").2).cls "b").2).element "c").1
        = some BuilderError.duplicate
    ∧ (((((Builder.mkNew.element "a").2).cls "b").2).element "c").1
        ≠ some BuilderError.orderViolation := by decide

/-- Claim C2 (amended): on a builder whose appended rank sequence is still
non-decreasing (`checkOrder` succeeds with running maximum `m`), a
fragment-adding call of rank < `m` that passes the duplicate check raises
`OrderViolationError` (when the duplicate check fires instead, the call
raises `DuplicateFragmentError`, not the order error), and a call of rank
≥ `m` never raises an order error. -/
theorem claim2_order_enforcement (b : Builder) (m : Nat) (op : Op)
    (h : b.checkOrder = some m) :
    (op.rank < m → dupBlocked op b = false →
        (applyOp op b).1 = some BuilderError.orderViolation)
    ∧ (m ≤ op.rank → (applyOp op b).1 ≠ some BuilderError.orderViolation) := by
  have h0 : checkOrderGo 0 b.order = some m := h
  constructor
  · intro hrank hd
    rw [applyOp_fst_of_not_blocked op b hd]
    rw [if_pos (checkOrderGo_append_bad h0 hrank)]
  · intro hrank
    by_cases hd : dupBlocked op b
    · rw [applyOp_fst_of_blocked op b hd]
      simp
    · rw [applyOp_fst_of_not_blocked op b (by simpa using hd)]
      rw [if_neg (by rw [checkOrderGo_append_ok h0 hrank]; simp)]
      simp

/-- Claim C2 witness: after `class('a')` (running maximum 3), `id('x')`
(rank 2) raises the order error and `attr('y')` (rank 4) does not. -/
theorem claim2_witness :
    ((((Builder.mkNew.cls "a").2).id "x").1 = some BuilderError.orderViolation)
    ∧ ((((Builder.mkNew.cls "a").2).attr "y").1 ≠ some BuilderError.orderViolation) := by
  constructor
  · exact (claim2_order_enforcement ((Builder.mkNew.cls "a").2) 3 (Op.id "x")
      (by decide)).1 (by decide) (by decide)
  · exact (claim2_order_enforcement ((Builder.mkNew.cls "a").2) 3 (Op.attr "y")
      (by decide)).2 (by decide)

/-- Claim C3 counterexample: `addElement('')` then `addElement('x')` raises no
error at all on the second call — the element field stores the raw value, so
an empty first value leaves the field indistinguishable from unset and the
duplicate check does not fire. -/
theorem claim3_counterexample :
    (((Builder.mkNew.element "").2).element "x").1 = none
    ∧ (((Builder.mkNew.element "").2).element "x").1 ≠ some BuilderError.duplicate := by
  decide

/-- Claim C3 (amended): on any builder, a second `addId` (or a second
`addPseudoElement`) always raises `DuplicateFragmentError` for all value
pairs, because the stored strings `"#"+v` and `"::"+v` are never empty; a
second `addElement` raises it provided the first value `v1` is non-empty. -/
theorem claim3_second_call_duplicates (b : Builder) (v1 v2 : String) :
    (v1 ≠ "" → (((b.element v1).2).element v2).1 = some BuilderError.duplicate)
    ∧ ((((b.id v1).2).id v2).1 = some BuilderError.duplicate)
    ∧ ((((b.pseudoElement v1).2).pseudoElement v2).1 = some BuilderError.duplicate) := by
  refine ⟨?_, ?_, ?_⟩
  · intro hv
    by_cases hb : b.elem = ""
    · have h2 : ((b.element v1).2).elem = v1 := by rw [element_snd, if_pos hb]
      rw [element_of_defined _ v2 (by rw [h2]; exact hv)]
    · have h2 : ((b.element v1).2) = b := by rw [element_snd, if_neg hb]
      rw [h2, element_of_defined b v2 hb]
  · by_cases hb : b.idTag = ""
    · have h2 : ((b.id v1).2).idTag = "#" ++ v1 := by rw [id_snd, if_pos hb]
      rw [id_of_defined _ v2 (by rw [h2]; exact hash_ne_empty v1)]
    · have h2 : ((b.id v1).2) = b := by rw [id_snd, if_neg hb]
      rw [h2, id_of_defined b v2 hb]
  · by_cases hb : b.pseudoElem = ""
    · have h2 : ((b.pseudoElement v1).2).pseudoElem = "::" ++ v1 := by
        rw [pseudoElement_snd, if_pos hb]
      rw [pseudoElement_of_defined _ v2 (by rw [h2]; exact dcolon_ne_empty v1)]
    · have h2 : ((b.pseudoElement v1).2) = b := by rw [pseudoElement_snd, if_neg hb]
      rw [h2, pseudoElement_of_defined b v2 hb]

/-- Claim C3 witness: second calls with concrete non-empty values raise the
duplicate error for all three singleton categories. -/
theorem claim3_witness :
    ((((Builder.mkNew.element "a").2).element "b").1 = some BuilderError.duplicate)
    ∧ ((((Builder.mkNew.id "a").2).id "b").1 = some BuilderError.duplicate)
    ∧ ((((Builder.mkNew.pseudoElement "a").2).pseudoElement "b").1
        = some BuilderError.duplicate) :=
  ⟨(claim3_second_call_duplicates Builder.mkNew "a" "b").1 (by decide),
   (claim3_second_call_duplicates Builder.mkNew "a" "b").2.1,
   (claim3_second_call_duplicates Builder.mkNew "a" "b").2.2⟩

-- ### Valid same-or-higher-rank sequences of list-category calls

def isListOp : Op → Bool
  | .cls _ => true
  | .attr _ => true
  | .pseudoClass _ => true
  | _ => false

/-- A sequence of list-category calls in valid category order when the
running maximum of the builder so far is `m`: each call is a
class/attribute/pseudo-class call whose rank is at least the running
maximum, which then becomes that call's rank. -/
def validListSeq (m : Nat) : List Op → Bool
  | [] => true
  | op :: ops => isListOp op && decide (m ≤ op.rank) && validListSeq op.rank ops

theorem listOp_not_blocked (op : Op) (b : Builder) (h : isListOp op = true) :
    dupBlocked op b = false := by
  cases op with
  | element v => simp [isListOp] at h
  | id v => simp [isListOp] at h
  | pseudoElement v => simp [isListOp] at h
  | cls v => rfl
  | attr v => rfl
  | pseudoClass v => rfl

theorem applyOp_order_of_not_blocked (op : Op) (b : Builder)
    (hd : dupBlocked op b = false) :
    ((applyOp op b).2).order = b.order ++ [op.rank] := by
  cases op with
  | element v =>
    have hb : b.elem = "" := by
      simp [dupBlocked, Builder.isAlreadyDefined] at hd; exact hd
    rw [show applyOp (Op.element v) b = b.element v from rfl, element_snd, if_pos hb]
    rfl
  | id v =>
    have hb : b.idTag = "" := by
      simp [dupBlocked, Builder.isAlreadyDefined] at hd; exact hd
    rw [show applyOp (Op.id v) b = b.id v from rfl, id_snd, if_pos hb]
    rfl
  | pseudoElement v =>
    have hb : b.pseudoElem = "" := by
      simp [dupBlocked, Builder.isAlreadyDefined] at hd; exact hd
    rw [show applyOp (Op.pseudoElement v) b = b.pseudoElement v from rfl,
      pseudoElement_snd, if_pos hb]
    rfl
  | cls v =>
    rw [show applyOp (Op.cls v) b = b.cls v from rfl, cls_eq]
    rfl
  | attr v =>
    rw [show applyOp (Op.attr v) b = b.attr v from rfl, attr_eq]
    rfl
  | pseudoClass v =>
    rw [show applyOp (Op.pseudoClass v) b = b.pseudoClass v from rfl, pseudoClass_eq]
    rfl

theorem validListSeq_mem : ∀ (ops : List Op) (m : Nat),
    validListSeq m ops = true → ∀ op ∈ ops, isListOp op = true := by
  intro ops
  induction ops with
  | nil => intro m h op hmem; exact absurd hmem (List.not_mem_nil _)
  | cons op0 ops ih =>
    intro m h op hmem
    simp only [validListSeq, Bool.and_eq_true] at h
    rcases List.mem_cons.mp hmem with heq | hmem2
    · rw [heq]; exact h.1.1
    · exact ih op0.rank h.2 op hmem2

theorem runOps_singleton_fields : ∀ (ops : List Op) (b : Builder),
    (∀ op ∈ ops, isListOp op = true) →
    (runOps ops b).elem = b.elem ∧ (runOps ops b).idTag = b.idTag ∧
      (runOps ops b).pseudoElem = b.pseudoElem := by
  intro ops
  induction ops with
  | nil => intro b h; exact ⟨rfl, rfl, rfl⟩
  | cons op ops ih =>
    intro b h
    have hop : isListOp op = true := h op (List.mem_cons_self op ops)
    have hne1 : ∀ v, op ≠ Op.element v := by
      intro v hv; rw [hv] at hop; simp [isListOp] at hop
    have hne2 : ∀ v, op ≠ Op.id v := by
      intro v hv; rw [hv] at hop; simp [isListOp] at hop
    have hne3 : ∀ v, op ≠ Op.pseudoElement v := by
      intro v hv; rw [hv] at hop; simp [isListOp] at hop
    have hr := ih ((applyOp op b).2) (fun o ho => h o (List.mem_cons_of_mem op ho))
    refine ⟨?_, ?_, ?_⟩
    · show (runOps ops ((applyOp op b).2)).elem = b.elem
      rw [hr.1, applyOp_elem_of_ne op b hne1]
    · show (runOps ops ((applyOp op b).2)).idTag = b.idTag
      rw [hr.2.1, applyOp_idTag_of_ne op b hne2]
    · show (runOps ops ((applyOp op b).2)).pseudoElem = b.pseudoElem
      rw [hr.2.2, applyOp_pseudoElem_of_ne op b hne3]

theorem chainOk_of_validListSeq : ∀ (ops : List Op) (b : Builder) (m : Nat),
    b.checkOrder = some m → validListSeq m ops = true →
    chainOk ops b = some (runOps ops b) := by
  intro ops
  induction ops with
  | nil => intro b m h1 h2; rfl
  | cons op ops ih =>
    intro b m hclean hseq
    simp only [validListSeq, Bool.and_eq_true, decide_eq_true_eq] at hseq
    obtain ⟨⟨hlist, hm⟩, hrest⟩ := hseq
    have h0 : checkOrderGo 0 b.order = some m := hclean
    have hnb : dupBlocked op b = false := listOp_not_blocked op b hlist
    have hfst : (applyOp op b).1 = none := by
      rw [applyOp_fst_of_not_blocked op b hnb,
        if_neg (by rw [checkOrderGo_append_ok h0 hm]; simp)]
    have hclean2 : ((applyOp op b).2).checkOrder = some op.rank := by
      show checkOrderGo 0 ((applyOp op b).2).order = some op.rank
      rw [applyOp_order_of_not_blocked op b hnb]
      exact checkOrderGo_append_ok h0 hm
    have ihc := ih ((applyOp op b).2) op.rank hclean2 hrest
    simp only [chainOk]
    cases hop : applyOp op b with
    | mk e b2 =>
      have he : e = none := by rw [← hfst, hop]
      subst he
      show chainOk ops b2 = some (runOps (op :: ops) b)
      have hb2 : b2 = (applyOp op b).2 := by rw [hop]
      rw [hb2]
      exact ihc

/-- Claim C4: calling addClass/addAttribute/addPseudoClass any number of
times in valid category order, including with repeated identical values,
never raises an error, and each call appends its formatted value exactly
once more, in call order, to the corresponding list (rendered in insertion
order by `stringify`), leaving the singleton fields untouched. -/
theorem claim4_list_categories_total (b : Builder) (m : Nat) (ops : List Op)
    (hclean : b.checkOrder = some m) (hseq : validListSeq m ops = true) :
    chainOk ops b = some (runOps ops b)
    ∧ (runOps ops b).classes = b.classes ++ ops.filterMap clsFmt
    ∧ (runOps ops b).attributes = b.attributes ++ ops.filterMap attrFmt
    ∧ (runOps ops b).pseudoClasses = b.pseudoClasses ++ ops.filterMap pclsFmt
    ∧ (runOps ops b).elem = b.elem
    ∧ (runOps ops b).idTag = b.idTag
    ∧ (runOps ops b).pseudoElem = b.pseudoElem := by
  obtain ⟨he, hi, hp⟩ := runOps_singleton_fields ops b (validListSeq_mem ops m hseq)
  exact ⟨chainOk_of_validListSeq ops b m hclean hseq, runOps_classes ops b,
    runOps_attributes ops b, runOps_pseudoClasses ops b, he, hi, hp⟩

/-- Claim C4 witness: after `element('a')`, the calls
`class('x').class('x').attr('y').pseudoClass('z')` (with a repeated
identical class value) all succeed and contribute in call order. -/
theorem claim4_witness :
    chainOk [Op.cls "x", Op.cls "x", Op.attr "y", Op.pseudoClass "z"]
        ((Builder.mkNew.element "a").2)
      = some (runOps [Op.cls "x", Op.cls "x", Op.attr "y", Op.pseudoClass "z"]
        ((Builder.mkNew.element "a").2))
    ∧ (runOps [Op.cls "x", Op.cls "x", Op.attr "y", Op.pseudoClass "z"]
        ((Builder.mkNew.element "a").2)).classes = [".x", ".x"] := by
  have h := claim4_list_categories_total ((Builder.mkNew.element "a").2) 1
    [Op.cls "x", Op.cls "x", Op.attr "y", Op.pseudoClass "z"] (by decide) (by decide)
  refine ⟨h.1, ?_⟩
  rw [h.2.1]
  decide

/-- Claim C5: `combine(a, s, b)` returns a renderable whose render equals
`render(a) + " " + s + " " + render(b)`, with a single space on each side of
the symbol whatever the symbol is; with the concrete scenario
`combine(element('div').id('main'), '+', element('table').id('data'))`
rendering `"div#main + table#data"`. -/
theorem claim5_combine_format :
    (∀ (a b : Renderable) (s : String),
      (combine a s b).stringify = a.stringify ++ " " ++ s ++ " " ++ b.stringify)
    ∧ (combine (.builder ((((Builder.mkNew.element "div").2).id "main").2)) "+"
         (.builder ((((Builder.mkNew.element "table").2).id "data").2))).stringify
        = "div#main + table#data" := by
  exact ⟨fun a b s => rfl, by decide⟩

/-- Claim C6: when a list-category call raises the order error, the list
mutation has already been applied: the offending formatted value is present
in the corresponding list of the post-state. -/
theorem claim6_mutation_before_raise (b : Builder) (v : String) :
    ((b.cls v).1 = some BuilderError.orderViolation →
        ("." ++ v) ∈ ((b.cls v).2).classes)
    ∧ ((b.attr v).1 = some BuilderError.orderViolation →
        ("[" ++ v ++ "]") ∈ ((b.attr v).2).attributes)
    ∧ ((b.pseudoClass v).1 = some BuilderError.orderViolation →
        (":" ++ v) ∈ ((b.pseudoClass v).2).pseudoClasses) := by
  refine ⟨?_, ?_, ?_⟩ <;> intro hv
  · rw [cls_eq]; simp
  · rw [attr_eq]; simp
  · rw [pseudoClass_eq]; simp

/-- Claim C6 witness: after `pseudoElement('x')` (rank 6 appended), each
list-category call raises the order error yet its formatted value sits in
the list afterwards. -/
theorem claim6_witness :
    ("." ++ "c") ∈ ((((Builder.mkNew.pseudoElement "x").2).cls "c").2).classes
    ∧ ("[" ++ "a" ++ "]") ∈ ((((Builder.mkNew.pseudoElement "x").2).attr "a").2).attributes
    ∧ (":" ++ "p") ∈ ((((Builder.mkNew.pseudoElement "x").2).pseudoClass "p").2).pseudoClasses :=
  ⟨(claim6_mutation_before_raise ((Builder.mkNew.pseudoElement "x").2) "c").1 (by decide),
   (claim6_mutation_before_raise ((Builder.mkNew.pseudoElement "x").2) "a").2.1 (by decide),
   (claim6_mutation_before_raise ((Builder.mkNew.pseudoElement "x").2) "p").2.2 (by decide)⟩

/-- Claim C7: the combine result is a snapshot: it is a value holding only
the fully rendered operand strings joined at combine time (its `stringify`
merely returns the stored string), so fragment-adding calls applied to an
operand afterwards never change the earlier combined value's render; the
closed scenario shows the operand's own render changing while the combined
value built beforehand still renders the old strings. -/
theorem claim7_combine_snapshot (a b : Builder) (s : String) (opsA opsB : List Op) :
    combine (Renderable.builder a) s (Renderable.builder b)
      = Renderable.combined ⟨a.stringify ++ " " ++ s ++ " " ++ b.stringify⟩
    ∧ (∀ c : Combined, c.stringify = c.result)
    ∧ combine (Renderable.builder (runOps opsA a)) s (Renderable.builder (runOps opsB b))
      = Renderable.combined
          ⟨(runOps opsA a).stringify ++ " " ++ s ++ " " ++ (runOps opsB b).stringify⟩
    ∧ ((combine (Renderable.builder ((Builder.mkNew.element "div").2)) "+"
          (Renderable.builder ((Builder.mkNew.element "p").2))).stringify = "div + p"
        ∧ (runOps [Op.cls "x"] ((Builder.mkNew.element "div").2)).stringify = "div.x") :=
  ⟨rfl, fun _ => rfl, rfl, by decide, by decide⟩

/-- Claim C8: for every reachable builder state, a `stringify()` call
returns without error (its body contains no throwing construct, so it is
modeled as a total function), leaves every field of the receiver unchanged,
and repeated calls return the same string. -/
theorem claim8_stringify_pure (ops : List Op) :
    ((runOps ops Builder.mkNew).stringifyCall).2 = runOps ops Builder.mkNew
    ∧ ((runOps ops Builder.mkNew).stringifyCall).1
      = (((runOps ops Builder.mkNew).stringifyCall).2.stringifyCall).1 :=
  ⟨rfl, rfl⟩

-- ### Poisoned builders (claim C10)

theorem applyOp_snd_of_blocked (op : Op) (b : Builder) (hd : dupBlocked op b = true) :
    (applyOp op b).2 = b := by
  cases op with
  | element v =>
    have hb : b.elem ≠ "" := by
      simp [dupBlocked, Builder.isAlreadyDefined] at hd; exact hd
    rw [show applyOp (Op.element v) b = b.element v from rfl, element_of_defined b v hb]
  | id v =>
    have hb : b.idTag ≠ "" := by
      simp [dupBlocked, Builder.isAlreadyDefined] at hd; exact hd
    rw [show applyOp (Op.id v) b = b.id v from rfl, id_of_defined b v hb]
  | pseudoElement v =>
    have hb : b.pseudoElem ≠ "" := by
      simp [dupBlocked, Builder.isAlreadyDefined] at hd; exact hd
    rw [show applyOp (Op.pseudoElement v) b = b.pseudoElement v from rfl,
      pseudoElement_of_defined b v hb]
  | cls v => simp [dupBlocked] at hd
  | attr v => simp [dupBlocked] at hd
  | pseudoClass v => simp [dupBlocked] at hd

theorem applyOp_checkOrder_none (op : Op) (b : Builder) (h : b.checkOrder = none) :
    ((applyOp op b).2).checkOrder = none := by
  by_cases hd : dupBlocked op b
  · rw [applyOp_snd_of_blocked op b hd]; exact h
  · show checkOrderGo 0 ((applyOp op b).2).order = none
    rw [applyOp_order_of_not_blocked op b (by simpa using hd)]
    exact checkOrderGo_append_none h

theorem runOps_checkOrder_none : ∀ (ops : List Op) (b : Builder),
    b.checkOrder = none → (runOps ops b).checkOrder = none := by
  intro ops
  induction ops with
  | nil => intro b h; exact h
  | cons op ops ih =>
    intro b h
    show (runOps ops ((applyOp op b).2)).checkOrder = none
    exact ih _ (applyOp_checkOrder_none op b h)

theorem applyOp_fst_of_checkOrder_none (op : Op) (b : Builder)
    (h : b.checkOrder = none) :
    (applyOp op b).1 =
      if dupBlocked op b then some BuilderError.duplicate
      else some BuilderError.orderViolation := by
  by_cases hd : dupBlocked op b
  · rw [applyOp_fst_of_blocked op b hd, if_pos hd]
  · rw [applyOp_fst_of_not_blocked op b (by simpa using hd), if_neg hd,
      if_pos (checkOrderGo_append_none h)]

theorem checkOrder_none_of_ov (op : Op) (b : Builder)
    (h : (applyOp op b).1 = some BuilderError.orderViolation) :
    ((applyOp op b).2).checkOrder = none := by
  by_cases hd : dupBlocked op b
  · rw [applyOp_fst_of_blocked op b hd] at h
    simp at h
  · rw [applyOp_fst_of_not_blocked op b (by simpa using hd)] at h
    by_cases hc : checkOrderGo 0 (b.order ++ [op.rank]) = none
    · show checkOrderGo 0 ((applyOp op b).2).order = none
      rw [applyOp_order_of_not_blocked op b (by simpa using hd)]
      exact hc
    · rw [if_neg hc] at h
      exact Option.noConfusion h

/-- Claim C10 counterexample: after `class('a')` then `element('e')` (which
raises the order error), a further `element('x')` raises the duplicate
error, not `OrderViolationError` — the duplicate check preempts the order
re-validation. -/
theorem claim10_counterexample :
    ((((Builder.mkNew.cls "a").2).element "e").1 = some BuilderError.orderViolation)
    ∧ ((((((Builder.mkNew.cls "a").2).element "e").2).element "x").1
        = some BuilderError.duplicate)
    ∧ ((((((Builder.mkNew.cls "a").2).element "e").2).element "x").1
        ≠ some BuilderError.orderViolation) := by decide

/-- Claim C10 (amended): once a call has raised `OrderViolationError`, the
appended rank sequence keeps its inversion forever, so every subsequent
fragment-adding call on that builder raises an error: `OrderViolationError`,
except that `addElement`/`addId`/`addPseudoElement` raise
`DuplicateFragmentError` when their field is already set (the duplicate
check runs before the order re-validation). -/
theorem claim10_poisoned_builder (b0 : Builder) (op0 : Op) (ops : List Op) (op : Op)
    (h : (applyOp op0 b0).1 = some BuilderError.orderViolation) :
    (applyOp op (runOps ops ((applyOp op0 b0).2))).1
      = (if dupBlocked op (runOps ops ((applyOp op0 b0).2))
          then some BuilderError.duplicate else some BuilderError.orderViolation) := by
  have h1 := checkOrder_none_of_ov op0 b0 h
  have h2 := runOps_checkOrder_none ops _ h1
  exact applyOp_fst_of_checkOrder_none op _ h2

/-- Claim C10 witness: after the order violation of `element('e')` following
`class('a')`, and one more caught violation `class('b')`, a later
`attr('z')` still raises the order error. -/
theorem claim10_witness :
    (applyOp (Op.attr "z")
      (runOps [Op.cls "b"] ((applyOp (Op.element "e") ((Builder.mkNew.cls "a").2)).2))).1
      = some BuilderError.orderViolation := by
  have h := claim10_poisoned_builder ((Builder.mkNew.cls "a").2) (Op.element "e")
    [Op.cls "b"] (Op.attr "z") (by decide)
  rw [h]
  decide

-- ### JSON values and the serializer / parser collaborators (claim C9)

/-- Plain acyclic JSON data value: the structured values exchanged by
`getJSON` (source lines 44-46) and `fromJSON` (source lines 60-64).
Numbers are modeled as integers; object fields keep insertion order. -/
inductive JValue where
  | null
  | bool (b : Bool)
  | num (n : Int)
  | str (s : String)
  | arr (elems : List JValue)
  | obj (fields : List (String × JValue))

/-- Decimal digit character for a digit value. -/
def dChar : Nat → Char
  | 0 => '0'
  | 1 => '1'
  | 2 => '2'
  | 3 => '3'
  | 4 => '4'
  | 5 => '5'
  | 6 => '6'
  | 7 => '7'
  | 8 => '8'
  | 9 => '9'
  | _ => '0'

/-- Big-endian decimal digits of a natural number (with `[0]` for zero). -/
def digitsBE (n : Nat) : List Nat :=
  if n = 0 then [0] else (Nat.digits 10 n).reverse

/-- Decimal character rendering of a natural number. -/
def serNat (n : Nat) : List Char := (digitsBE n).map dChar

/-- Decimal character rendering of an integer (minus sign for negatives). -/
def serializeNum (n : Int) : List Char :=
  if n < 0 then '-' :: serNat n.natAbs else serNat n.toNat

/-- JSON string-body escaping: quote and backslash get a backslash prefix,
all other characters are emitted verbatim. -/
def escChars : List Char → List Char
  | [] => []
  | c :: cs => if c = '"' || c = '\\' then '\\' :: c :: escChars cs else c :: escChars cs

mutual

/-- Modelled from the spec: the JSON serializer collaborator (spec section 6,
`serialize(value) -> string`, standard JSON text with object keys in their
natural enumeration = insertion order); the source's `getJSON` delegates to
it (`JSON.stringify`, source line 45).  Character-list body. -/
def serializeV : JValue → List Char
  | .num n => serializeNum n
  | .str s => '"' :: (escChars s.data ++ ['"'])
  | .arr [] => ['[', ']']
  | .arr (x :: xs) => '[' :: (serializeElems (x :: xs) ++ [']'])
  | .obj [] => ['\x7b', '\x7d']
  | .obj (f :: fs) => '\x7b' :: (serializeFields (f :: fs) ++ ['\x7d'])
  | .null => 'n' :: ['u', 'l', 'l']
  | .bool true => 't' :: ['r', 'u', 'e']
  | .bool false => 'f' :: ['a', 'l', 's', 'e']

/-- Comma-separated serialization of a non-empty array body. -/
def serializeElems : List JValue → List Char
  | [] => []
  | [x] => serializeV x
  | x :: y :: xs => serializeV x ++ ',' :: serializeElems (y :: xs)

/-- Comma-separated serialization of a non-empty object body
(`"key":value` pairs in insertion order). -/
def serializeFields : List (String × JValue) → List Char
  | [] => []
  | [(k, v)] => '"' :: (escChars k.data ++ '"' :: ':' :: serializeV v)
  | (k, v) :: g :: fs =>
    ('"' :: (escChars k.data ++ '"' :: ':' :: serializeV v)) ++ ',' :: serializeFields (g :: fs)

end

/-- Numeric value of a decimal digit character. -/
def digitVal (c : Char) : Nat := c.toNat - 48

/-- Greedy decimal-digit scan accumulating a value. -/
def parseDigitsAcc (acc : Nat) : List Char → Nat × List Char
  | [] => (acc, [])
  | c :: rest =>
    if c.isDigit then parseDigitsAcc (acc * 10 + digitVal c) rest else (acc, c :: rest)

/-- Scan a JSON string body up to the closing quote, undoing the
backslash escapes. -/
def parseStrChars : List Char → Option (List Char × List Char)
  | [] => none
  | c :: rest =>
    if c = '"' then some ([], rest)
    else if c = '\\' then
      match rest with
      | [] => none
      | d :: rest2 =>
        match parseStrChars rest2 with
        | none => none
        | some (cs, r) => some (d :: cs, r)
    else
      match parseStrChars rest with
      | none => none
      | some (cs, r) => some (c :: cs, r)

/-- Expect a fixed character sequence as a prefix of the input. -/
def expectChars : List Char → List Char → Option (List Char)
  | [], input => some input
  | _ :: _, [] => none
  | c :: cs, d :: input => if d = c then expectChars cs input else none

/-- Parse the digits of a negative number after the minus sign. -/
def parseNeg : List Char → Option (JValue × List Char)
  | [] => none
  | d :: rest2 =>
    if d.isDigit then
      some (.num (-((parseDigitsAcc (digitVal d) rest2).1 : Int)),
            (parseDigitsAcc (digitVal d) rest2).2)
    else none

/-- Wrap a parsed array body as an array value. -/
def finishArr : Option (List JValue × List Char) → Option (JValue × List Char)
  | some (es, r) => some (.arr es, r)
  | none => none

/-- Wrap a parsed object body as an object value. -/
def finishObj : Option (List (String × JValue) × List Char) → Option (JValue × List Char)
  | some (fs, r) => some (.obj fs, r)
  | none => none

mutual

/-- Modelled from the spec: the JSON parser collaborator (spec section 6,
`parse(text) -> value`, failing on malformed text); the source's `fromJSON`
delegates to it (`JSON.parse`, source line 61).  Fuel-indexed
recursive-descent parser over a character list. -/
def parseV : Nat → List Char → Option (JValue × List Char)
  | 0, _ => none
  | _ + 1, [] => none
  | f + 1, c :: rest =>
    if c = 'n' then (expectChars ['u', 'l', 'l'] rest).map (fun r => (JValue.null, r))
    else if c = 't' then (expectChars ['r', 'u', 'e'] rest).map (fun r => (JValue.bool true, r))
    else if c = 'f' then (expectChars ['a', 'l', 's', 'e'] rest).map (fun r => (JValue.bool false, r))
    else if c = '"' then (parseStrChars rest).map (fun p => (JValue.str (String.mk p.1), p.2))
    else if c = '-' then parseNeg rest
    else if c.isDigit then
      some (.num ((parseDigitsAcc (digitVal c) rest).1 : Int),
            (parseDigitsAcc (digitVal c) rest).2)
    else if c = '[' then
      if rest.head? = some ']' then some (.arr [], rest.tail)
      else finishArr (parseElems f rest)
    else if c = '\x7b' then
      if rest.head? = some '\x7d' then some (.obj [], rest.tail)
      else finishObj (parseFields f rest)
    else none

/-- Parse a non-empty comma-separated array body ending at `]`. -/
def parseElems : Nat → List Char → Option (List JValue × List Char)
  | 0, _ => none
  | f + 1, input =>
    match parseV f input with
    | none => none
    | some (v, r) =>
      if r.head? = some ',' then
        match parseElems f r.tail with
        | some (es, r3) => some (v :: es, r3)
        | none => none
      else if r.head? = some ']' then some ([v], r.tail)
      else none

/-- Parse a non-empty comma-separated object body ending at the closing
brace. -/
def parseFields : Nat → List Char → Option (List (String × JValue) × List Char)
  | 0, _ => none
  | f + 1, input =>
    if input.head? = some '"' then
      match parseStrChars input.tail with
      | none => none
      | some (k, r2) =>
        if r2.head? = some ':' then
          match parseV f r2.tail with
          | none => none
          | some (v, r4) =>
            if r4.head? = some ',' then
              match parseFields f r4.tail with
              | some (fs, r6) => some ((String.mk k, v) :: fs, r6)
              | none => none
            else if r4.head? = some '\x7d' then some ([(String.mk k, v)], r4.tail)
            else none
        else none
    else none

end

mutual

/-- Fuel needed by `parseV` to parse the serialization of a value. -/
def sizeV : JValue → Nat
  | .arr (x :: xs) => 1 + sizeElems (x :: xs)
  | .obj (f :: fs) => 1 + sizeFields (f :: fs)
  | _ => 1

/-- Fuel needed by `parseElems` for an array body. -/
def sizeElems : List JValue → Nat
  | [] => 0
  | x :: xs => 1 + sizeV x + sizeElems xs

/-- Fuel needed by `parseFields` for an object body. -/
def sizeFields : List (String × JValue) → Nat
  | [] => 0
  | (_, v) :: fs => 1 + sizeV v + sizeFields fs

end

/-- Modelled from the spec: `serialize(value) -> string` (spec section 6). -/
def JSONstringify (v : JValue) : String := String.mk (serializeV v)

/-- Modelled from the spec: `parse(text) -> value` (spec section 6); `none`
models the `MalformedInputError` failure on text the grammar rejects. -/
def JSONparse (s : String) : Option JValue :=
  match parseV (s.length + 1) s.data with
  | some (v, []) => some v
  | _ => none

/-- `getJSON` (source lines 44-46): delegates to the serializer. -/
def getJSON (obj : JValue) : String := JSONstringify obj

/-- A parsed value carrying an attached behavior set, the result of
`Object.setPrototypeOf(obj, proto)` in `fromJSON` (source line 62): the own
data fields plus the prototype reference. -/
structure Attached (P : Type) where
  data : JValue
  proto : P

/-- `fromJSON` (source lines 60-64): parse the text (propagating the
parser's failure), then attach the prototype. -/
def fromJSON {P : Type} (proto : P) (json : String) : Option (Attached P) :=
  match JSONparse json with
  | some obj => some { data := obj, proto := proto }
  | none => none

-- ### Digit lemmas

theorem dChar_facts (d : Nat) (h : d < 10) :
    (dChar d).isDigit = true ∧ digitVal (dChar d) = d ∧ dChar d ≠ 'n' ∧
      dChar d ≠ 't' ∧ dChar d ≠ 'f' ∧ dChar d ≠ '"' ∧ dChar d ≠ '-' ∧
      dChar d ≠ ']' ∧ dChar d ≠ '\x7d' ∧ dChar d ≠ '[' ∧ dChar d ≠ '\x7b' := by
  interval_cases d <;> decide

/-- The input does not begin with a decimal digit. -/
def noDigitStart (rest : List Char) : Prop :=
  ∀ c cs, rest = c :: cs → c.isDigit = false

/-- The input is empty or begins with one of the terminators that can follow
a serialized value inside an array or object. -/
def Bnd (rest : List Char) : Prop :=
  rest = [] ∨ ∃ c cs, rest = c :: cs ∧ (c = ',' ∨ c = ']' ∨ c = '\x7d')

theorem Bnd_nil : Bnd [] := Or.inl rfl

theorem Bnd_comma (cs : List Char) : Bnd (',' :: cs) :=
  Or.inr ⟨',', cs, rfl, Or.inl rfl⟩

theorem Bnd_rbrack (cs : List Char) : Bnd (']' :: cs) :=
  Or.inr ⟨']', cs, rfl, Or.inr (Or.inl rfl)⟩

theorem Bnd_rbrace (cs : List Char) : Bnd ('\x7d' :: cs) :=
  Or.inr ⟨'\x7d', cs, rfl, Or.inr (Or.inr rfl)⟩

theorem Bnd_noDigitStart {rest : List Char} (h : Bnd rest) : noDigitStart rest := by
  intro c cs hr
  rcases h with h | ⟨d, ds, hds, hd⟩
  · rw [hr] at h; exact List.noConfusion h
  · rw [hr] at hds
    have hc : c = d := (List.cons.injEq _ _ _ _ ▸ hds).1
    rcases hd with h1 | h1 | h1 <;> rw [hc, h1] <;> decide

theorem parseDigitsAcc_stop (acc : Nat) (rest : List Char) (h : noDigitStart rest) :
    parseDigitsAcc acc rest = (acc, rest) := by
  cases rest with
  | nil => rfl
  | cons c cs =>
    have hc := h c cs rfl
    simp [parseDigitsAcc, hc]

theorem parseDigitsAcc_run : ∀ (ds : List Nat) (acc : Nat) (rest : List Char),
    (∀ d ∈ ds, d < 10) → noDigitStart rest →
    parseDigitsAcc acc (ds.map dChar ++ rest)
      = (ds.foldl (fun a d => a * 10 + d) acc, rest) := by
  intro ds
  induction ds with
  | nil =>
    intro acc rest hd hr
    simp [parseDigitsAcc_stop acc rest hr]
  | cons d ds ih =>
    intro acc rest hd hr
    have h10 : d < 10 := hd d (List.mem_cons_self d ds)
    have hdig : (dChar d).isDigit = true := (dChar_facts d h10).1
    have hval : digitVal (dChar d) = d := (dChar_facts d h10).2.1
    simp only [List.map, List.cons_append, parseDigitsAcc, hdig, if_true, hval]
    exact ih _ rest (fun e he => hd e (List.mem_cons_of_mem _ he)) hr

theorem foldl_mul_add (ds : List Nat) : ∀ acc : Nat,
    ds.foldl (fun a d => a * 10 + d) acc
      = acc * 10 ^ ds.length + Nat.ofDigits 10 ds.reverse := by
  induction ds with
  | nil => intro acc; simp [Nat.ofDigits]
  | cons d ds ih =>
    intro acc
    show ds.foldl _ (acc * 10 + d) = _
    rw [ih (acc * 10 + d)]
    simp only [List.reverse_cons, Nat.ofDigits_append, Nat.ofDigits_singleton,
      List.length_cons, List.length_reverse, pow_succ]
    push_cast
    ring

theorem digitsBE_ne_nil (n : Nat) : digitsBE n ≠ [] := by
  unfold digitsBE
  split
  · simp
  · rename_i h
    simp only [ne_eq, List.reverse_eq_nil_iff]
    exact Nat.digits_ne_nil_iff_ne_zero.mpr h

theorem digitsBE_lt (n : Nat) : ∀ d ∈ digitsBE n, d < 10 := by
  intro d hd
  unfold digitsBE at hd
  split at hd
  · simp at hd; omega
  · rw [List.mem_reverse] at hd
    exact Nat.digits_lt_base (by norm_num) hd

theorem digitsBE_val (n : Nat) : ∀ (d0 : Nat) (ds : List Nat), digitsBE n = d0 :: ds →
    d0 * 10 ^ ds.length + Nat.ofDigits 10 ds.reverse = n := by
  intro d0 ds h
  unfold digitsBE at h
  split at h
  · rename_i h0
    have h1 : d0 = 0 ∧ ds = ([] : List Nat) := by
      constructor <;> injection h <;> simp_all
    obtain ⟨rfl, rfl⟩ := h1
    simp [Nat.ofDigits, h0]
  · rename_i h0
    have h2 : Nat.digits 10 n = ds.reverse ++ [d0] := by
      have h3 := congrArg List.reverse h
      rw [List.reverse_reverse] at h3
      rw [h3, List.reverse_cons]
    have h3 := Nat.ofDigits_digits 10 n
    rw [h2, Nat.ofDigits_append, Nat.ofDigits_singleton, List.length_reverse] at h3
    have h4 : (10 : Nat) ^ ds.length * d0 = d0 * 10 ^ ds.length := mul_comm _ _
    omega




-- ### Unfolding equations for the parser

theorem parseStrChars_cons (c : Char) (rest : List Char) :
    parseStrChars (c :: rest) =
      (if c = '"' then some ([], rest)
       else if c = '\\' then
         match rest with
         | [] => none
         | d :: rest2 =>
           match parseStrChars rest2 with
           | none => none
           | some (cs, r) => some (d :: cs, r)
       else
         match parseStrChars rest with
         | none => none
         | some (cs, r) => some (c :: cs, r)) := by
  rw [parseStrChars.eq_def]

theorem parseV_cons (f : Nat) (c : Char) (rest : List Char) :
    parseV (f + 1) (c :: rest) =
      (if c = 'n' then (expectChars ['u', 'l', 'l'] rest).map (fun r => (JValue.null, r))
      else if c = 't' then (expectChars ['r', 'u', 'e'] rest).map (fun r => (JValue.bool true, r))
      else if c = 'f' then (expectChars ['a', 'l', 's', 'e'] rest).map (fun r => (JValue.bool false, r))
      else if c = '"' then (parseStrChars rest).map (fun p => (JValue.str (String.mk p.1), p.2))
      else if c = '-' then parseNeg rest
      else if c.isDigit then
        some (.num ((parseDigitsAcc (digitVal c) rest).1 : Int),
              (parseDigitsAcc (digitVal c) rest).2)
      else if c = '[' then
        if rest.head? = some ']' then some (.arr [], rest.tail)
        else finishArr (parseElems f rest)
      else if c = '\x7b' then
        if rest.head? = some '\x7d' then some (.obj [], rest.tail)
        else finishObj (parseFields f rest)
      else none) := by
  rw [parseV.eq_def]

theorem parseElems_succ (f : Nat) (input : List Char) :
    parseElems (f + 1) input =
      (match parseV f input with
       | none => none
       | some (v, r) =>
         if r.head? = some ',' then
           match parseElems f r.tail with
           | some (es, r3) => some (v :: es, r3)
           | none => none
         else if r.head? = some ']' then some ([v], r.tail)
         else none) := by
  rw [parseElems.eq_def]

theorem parseFields_succ (f : Nat) (input : List Char) :
    parseFields (f + 1) input =
      (if input.head? = some '"' then
        match parseStrChars input.tail with
        | none => none
        | some (k, r2) =>
          if r2.head? = some ':' then
            match parseV f r2.tail with
            | none => none
            | some (v, r4) =>
              if r4.head? = some ',' then
                match parseFields f r4.tail with
                | some (fs, r6) => some ((String.mk k, v) :: fs, r6)
                | none => none
              else if r4.head? = some '\x7d' then some ([(String.mk k, v)], r4.tail)
              else none
          else none
      else none) := by
  rw [parseFields.eq_def]

-- ### Fixed-text, string and number round-trip pieces

theorem expectChars_self : ∀ (s rest : List Char), expectChars s (s ++ rest) = some rest := by
  intro s
  induction s with
  | nil => intro rest; rfl
  | cons c cs ih =>
    intro rest
    simp only [List.cons_append, expectChars, if_pos rfl]
    exact ih rest

theorem parseStr_esc : ∀ (cs rest : List Char),
    parseStrChars (escChars cs ++ '"' :: rest) = some (cs, rest) := by
  intro cs
  induction cs with
  | nil =>
    intro rest
    show parseStrChars ('"' :: rest) = some ([], rest)
    rw [parseStrChars_cons, if_pos rfl]
  | cons c cs ih =>
    intro rest
    by_cases hc : c = '"' ∨ c = '\\'
    · have hesc : escChars (c :: cs) = '\\' :: c :: escChars cs := by
        rcases hc with h | h <;> simp [escChars, h]
      rw [hesc]
      show parseStrChars ('\\' :: (c :: (escChars cs ++ '"' :: rest))) = _
      rw [parseStrChars_cons, if_neg (by decide), if_pos rfl]
      show (match parseStrChars (escChars cs ++ '"' :: rest) with
            | none => none
            | some (cs2, r) => some (c :: cs2, r)) = some (c :: cs, rest)
      rw [ih rest]
    · push_neg at hc
      have hesc : escChars (c :: cs) = c :: escChars cs := by
        simp [escChars, hc.1, hc.2]
      rw [hesc]
      show parseStrChars (c :: (escChars cs ++ '"' :: rest)) = _
      rw [parseStrChars_cons, if_neg hc.1, if_neg hc.2]
      show (match parseStrChars (escChars cs ++ '"' :: rest) with
            | none => none
            | some (cs2, r) => some (c :: cs2, r)) = some (c :: cs, rest)
      rw [ih rest]

theorem parse_num (k : Int) (f : Nat) (rest : List Char) (h : noDigitStart rest) :
    parseV (f + 1) (serializeNum k ++ rest) = some (.num k, rest) := by
  by_cases hk : k < 0
  · rw [show serializeNum k = '-' :: serNat k.natAbs from by simp [serializeNum, hk]]
    cases hbd : digitsBE k.natAbs with
    | nil => exact absurd hbd (digitsBE_ne_nil _)
    | cons d0 ds =>
      have hd0 : d0 < 10 := digitsBE_lt _ d0 (by rw [hbd]; exact List.mem_cons_self _ _)
      have hds10 : ∀ d ∈ ds, d < 10 := fun d hd =>
        digitsBE_lt _ d (by rw [hbd]; exact List.mem_cons_of_mem _ hd)
      have hser : serNat k.natAbs = dChar d0 :: ds.map dChar := by
        rw [serNat, hbd]; rfl
      rw [hser]
      obtain ⟨hdig, hval, hrest2⟩ := dChar_facts d0 hd0
      show parseV (f + 1) ('-' :: (dChar d0 :: ds.map dChar ++ rest)) = _
      rw [parseV_cons, if_neg (by decide), if_neg (by decide), if_neg (by decide),
        if_neg (by decide), if_pos rfl]
      show parseNeg (dChar d0 :: (ds.map dChar ++ rest)) = _
      simp only [parseNeg, hdig, if_true, hval]
      rw [parseDigitsAcc_run ds d0 rest hds10 h]
      simp only [foldl_mul_add, digitsBE_val k.natAbs d0 ds hbd]
      have hcast : -((k.natAbs : Nat) : Int) = k := by omega
      rw [hcast]
  · rw [show serializeNum k = serNat k.toNat from by simp [serializeNum, hk]]
    cases hbd : digitsBE k.toNat with
    | nil => exact absurd hbd (digitsBE_ne_nil _)
    | cons d0 ds =>
      have hd0 : d0 < 10 := digitsBE_lt _ d0 (by rw [hbd]; exact List.mem_cons_self _ _)
      have hds10 : ∀ d ∈ ds, d < 10 := fun d hd =>
        digitsBE_lt _ d (by rw [hbd]; exact List.mem_cons_of_mem _ hd)
      have hser : serNat k.toNat = dChar d0 :: ds.map dChar := by
        rw [serNat, hbd]; rfl
      rw [hser]
      obtain ⟨hdig, hval, hn, ht, hf, hq, hm, hrest2⟩ := dChar_facts d0 hd0
      show parseV (f + 1) (dChar d0 :: (ds.map dChar ++ rest)) = _
      rw [parseV_cons, if_neg hn, if_neg ht, if_neg hf, if_neg hq, if_neg hm, if_pos hdig]
      rw [hval, parseDigitsAcc_run ds d0 rest hds10 h]
      simp only [foldl_mul_add, digitsBE_val k.toNat d0 ds hbd]
      have hcast : ((k.toNat : Nat) : Int) = k := by omega
      rw [hcast]

-- ### Size and head-shape lemmas

theorem sizeV_pos : ∀ v : JValue, 1 ≤ sizeV v := by
  intro v
  cases v with
  | null => simp [sizeV]
  | bool b => simp [sizeV]
  | num n => simp [sizeV]
  | str s => simp [sizeV]
  | arr es => cases es <;> simp [sizeV]
  | obj fs => cases fs <;> simp [sizeV]

theorem serNat_ne_nil (n : Nat) : serNat n ≠ [] := by
  unfold serNat
  simp only [ne_eq, List.map_eq_nil]
  exact digitsBE_ne_nil n

theorem serializeV_head : ∀ v : JValue, ∃ c cs, serializeV v = c :: cs ∧ c ≠ ']' ∧ c ≠ '\x7d' := by
  intro v
  cases v with
  | null => exact ⟨'n', ['u', 'l', 'l'], by simp [serializeV], by decide, by decide⟩
  | bool b =>
    cases b with
    | true => exact ⟨'t', ['r', 'u', 'e'], by simp [serializeV], by decide, by decide⟩
    | false => exact ⟨'f', ['a', 'l', 's', 'e'], by simp [serializeV], by decide, by decide⟩
  | num n =>
    by_cases hn : n < 0
    · exact ⟨'-', serNat n.natAbs, by simp [serializeV, serializeNum, hn], by decide, by decide⟩
    · cases hbd : digitsBE n.toNat with
      | nil => exact absurd hbd (digitsBE_ne_nil _)
      | cons d0 ds =>
        have hd0 : d0 < 10 := digitsBE_lt _ d0 (by rw [hbd]; exact List.mem_cons_self _ _)
        obtain ⟨_, _, _, _, _, _, _, hr1, hr2, _, _⟩ := dChar_facts d0 hd0
        refine ⟨dChar d0, ds.map dChar, ?_, hr1, hr2⟩
        simp [serializeV, serializeNum, hn, serNat, hbd]
  | str s => exact ⟨'"', escChars s.data ++ ['"'], by simp [serializeV], by decide, by decide⟩
  | arr es =>
    cases es with
    | nil => exact ⟨'[', [']'], by simp [serializeV], by decide, by decide⟩
    | cons x xs =>
      exact ⟨'[', serializeElems (x :: xs) ++ [']'], by simp [serializeV], by decide, by decide⟩
  | obj fs =>
    cases fs with
    | nil => exact ⟨'\x7b', ['\x7d'], by simp [serializeV], by decide, by decide⟩
    | cons f fs =>
      exact ⟨'\x7b', serializeFields (f :: fs) ++ ['\x7d'],
        by simp [serializeV], by decide, by decide⟩

theorem serializeElems_head (x : JValue) (xs : List JValue) :
    ∃ c cs, serializeElems (x :: xs) = c :: cs ∧ c ≠ ']' ∧ c ≠ '\x7d' := by
  obtain ⟨c, cs, hser, h1, h2⟩ := serializeV_head x
  cases xs with
  | nil => exact ⟨c, cs, by simp [serializeElems, hser], h1, h2⟩
  | cons y ys =>
    exact ⟨c, cs ++ ',' :: serializeElems (y :: ys),
      by simp [serializeElems, hser], h1, h2⟩

theorem size_le_serLen : ∀ n : Nat,
    (∀ v : JValue, sizeV v ≤ n → sizeV v ≤ (serializeV v).length)
    ∧ (∀ es : List JValue, sizeElems es ≤ n → sizeElems es ≤ (serializeElems es).length + 1)
    ∧ (∀ fs : List (String × JValue),
        sizeFields fs ≤ n → sizeFields fs ≤ (serializeFields fs).length + 1) := by
  intro n
  induction n using Nat.strong_induction_on with
  | _ n ih =>
  refine ⟨?_, ?_, ?_⟩
  · intro v hv
    cases v with
    | null => simp [sizeV, serializeV]
    | bool b => cases b <;> simp [sizeV, serializeV]
    | num k =>
      have h1 : serializeNum k ≠ [] := by
        unfold serializeNum
        split
        · simp
        · exact serNat_ne_nil _
      have h2 : 1 ≤ (serializeNum k).length := by
        cases hsk : serializeNum k with
        | nil => exact absurd hsk h1
        | cons a l => simp
      simp only [sizeV, serializeV]
      exact h2
    | str s => simp [sizeV, serializeV]
    | arr es =>
      cases es with
      | nil => simp [sizeV, serializeV]
      | cons x xs =>
        have hsz : sizeElems (x :: xs) ≤ n - 1 := by
          simp only [sizeV] at hv
          omega
        have hn1 : n - 1 < n := by
          have := sizeV_pos (.arr (x :: xs))
          omega
        have he := (ih (n - 1) hn1).2.1 (x :: xs) hsz
        simp only [sizeV, serializeV, List.length_cons, List.length_append,
          List.length_singleton]
        omega
    | obj fs =>
      cases fs with
      | nil => simp [sizeV, serializeV]
      | cons f fs =>
        have hsz : sizeFields (f :: fs) ≤ n - 1 := by
          simp only [sizeV] at hv
          omega
        have hn1 : n - 1 < n := by
          have := sizeV_pos (.obj (f :: fs))
          omega
        have he := (ih (n - 1) hn1).2.2 (f :: fs) hsz
        simp only [sizeV, serializeV, List.length_cons, List.length_append,
          List.length_singleton]
        omega
  · intro es hes
    cases es with
    | nil => simp [sizeElems]
    | cons x xs =>
      have hx1 : 1 ≤ sizeV x := sizeV_pos x
      have hvx : sizeV x ≤ sizeV x := le_refl _
      have hxn : sizeV x < n := by
        simp only [sizeElems] at hes
        omega
      have hv := (ih (sizeV x) hxn).1 x (le_refl _)
      cases xs with
      | nil =>
        simp only [sizeElems, serializeElems]
        omega
      | cons y ys =>
        have hyn : sizeElems (y :: ys) < n := by
          simp only [sizeElems] at hes ⊢
          omega
        have hy := (ih (sizeElems (y :: ys)) hyn).2.1 (y :: ys) (le_refl _)
        simp only [sizeElems, serializeElems, List.length_append, List.length_cons] at hes hy ⊢
        omega
  · intro fs hfs
    cases fs with
    | nil => simp [sizeFields]
    | cons f fs =>
      obtain ⟨k, v⟩ := f
      have hv1 : 1 ≤ sizeV v := sizeV_pos v
      have hvn : sizeV v < n := by
        simp only [sizeFields] at hfs
        omega
      have hv := (ih (sizeV v) hvn).1 v (le_refl _)
      cases fs with
      | nil =>
        simp only [sizeFields, serializeFields, List.length_cons, List.length_append]
        omega
      | cons g gs =>
        have hgn : sizeFields (g :: gs) < n := by
          simp only [sizeFields] at hfs ⊢
          omega
        have hg := (ih (sizeFields (g :: gs)) hgn).2.2 (g :: gs) (le_refl _)
        simp only [sizeFields, serializeFields, List.length_append, List.length_cons] at hfs hg ⊢
        omega

-- ### The parse-serialize round trip

theorem parse_serialize : ∀ n : Nat,
    (∀ v : JValue, sizeV v ≤ n → ∀ rest : List Char, Bnd rest →
      parseV n (serializeV v ++ rest) = some (v, rest))
    ∧ (∀ es : List JValue, es ≠ [] → sizeElems es ≤ n → ∀ rest : List Char,
      parseElems n (serializeElems es ++ ']' :: rest) = some (es, rest))
    ∧ (∀ fs : List (String × JValue), fs ≠ [] → sizeFields fs ≤ n → ∀ rest : List Char,
      parseFields n (serializeFields fs ++ '\x7d' :: rest) = some (fs, rest)) := by
  intro n
  induction n using Nat.strong_induction_on with
  | _ n ih =>
  refine ⟨?_, ?_, ?_⟩
  · intro v hv rest hrest
    have hpos := sizeV_pos v
    cases n with
    | zero => omega
    | succ m =>
    cases v with
    | null =>
      rw [show serializeV .null = ['n', 'u', 'l', 'l'] from by simp [serializeV]]
      show parseV (m + 1) ('n' :: (['u', 'l', 'l'] ++ rest)) = _
      rw [parseV_cons, if_pos rfl, expectChars_self]
      rfl
    | bool b =>
      cases b with
      | true =>
        rw [show serializeV (.bool true) = ['t', 'r', 'u', 'e'] from by simp [serializeV]]
        show parseV (m + 1) ('t' :: (['r', 'u', 'e'] ++ rest)) = _
        rw [parseV_cons, if_neg (by decide), if_pos rfl, expectChars_self]
        rfl
      | false =>
        rw [show serializeV (.bool false) = ['f', 'a', 'l', 's', 'e'] from by simp [serializeV]]
        show parseV (m + 1) ('f' :: (['a', 'l', 's', 'e'] ++ rest)) = _
        rw [parseV_cons, if_neg (by decide), if_neg (by decide), if_pos rfl, expectChars_self]
        rfl
    | num k =>
      rw [show serializeV (.num k) = serializeNum k from by simp [serializeV]]
      exact parse_num k m rest (Bnd_noDigitStart hrest)
    | str s =>
      rw [show serializeV (.str s) = '"' :: (escChars s.data ++ ['"']) from by simp [serializeV]]
      show parseV (m + 1) ('"' :: ((escChars s.data ++ ['"']) ++ rest)) = _
      rw [parseV_cons, if_neg (by decide), if_neg (by decide), if_neg (by decide), if_pos rfl]
      rw [show (escChars s.data ++ ['"']) ++ rest = escChars s.data ++ '"' :: rest from by simp]
      rw [parseStr_esc]
      rfl
    | arr es =>
      cases es with
      | nil =>
        rw [show serializeV (.arr []) = ['[', ']'] from by simp [serializeV]]
        show parseV (m + 1) ('[' :: (']' :: rest)) = _
        rw [parseV_cons, if_neg (by decide), if_neg (by decide), if_neg (by decide),
          if_neg (by decide), if_neg (by decide), if_neg (by decide), if_pos rfl,
          if_pos (show (']' :: rest : List Char).head? = some ']' from rfl)]
        rfl
      | cons x xs =>
        rw [show serializeV (.arr (x :: xs)) = '[' :: (serializeElems (x :: xs) ++ [']'])
          from by simp [serializeV]]
        show parseV (m + 1) ('[' :: ((serializeElems (x :: xs) ++ [']']) ++ rest)) = _
        rw [show (serializeElems (x :: xs) ++ [']']) ++ rest
            = serializeElems (x :: xs) ++ ']' :: rest from by simp]
        rw [parseV_cons, if_neg (by decide), if_neg (by decide), if_neg (by decide),
          if_neg (by decide), if_neg (by decide), if_neg (by decide), if_pos rfl]
        obtain ⟨c, cs, hser, hc1, hc2⟩ := serializeElems_head x xs
        rw [if_neg (show ¬ ((serializeElems (x :: xs) ++ ']' :: rest).head? = some ']') from by
          rw [hser]; simp [hc1])]
        have hsz : sizeElems (x :: xs) ≤ m := by
          simp only [sizeV] at hv
          omega
        rw [(ih m (by omega)).2.1 (x :: xs) (by simp) hsz rest]
        rfl
    | obj fs =>
      cases fs with
      | nil =>
        rw [show serializeV (.obj []) = ['\x7b', '\x7d'] from by simp [serializeV]]
        show parseV (m + 1) ('\x7b' :: ('\x7d' :: rest)) = _
        rw [parseV_cons, if_neg (by decide), if_neg (by decide), if_neg (by decide),
          if_neg (by decide), if_neg (by decide), if_neg (by decide), if_neg (by decide),
          if_pos rfl, if_pos (show ('\x7d' :: rest : List Char).head? = some '\x7d' from rfl)]
        rfl
      | cons f fs =>
        rw [show serializeV (.obj (f :: fs)) = '\x7b' :: (serializeFields (f :: fs) ++ ['\x7d'])
          from by simp [serializeV]]
        show parseV (m + 1) ('\x7b' :: ((serializeFields (f :: fs) ++ ['\x7d']) ++ rest)) = _
        rw [show (serializeFields (f :: fs) ++ ['\x7d']) ++ rest
            = serializeFields (f :: fs) ++ '\x7d' :: rest from by simp]
        rw [parseV_cons, if_neg (by decide), if_neg (by decide), if_neg (by decide),
          if_neg (by decide), if_neg (by decide), if_neg (by decide), if_neg (by decide),
          if_pos rfl]
        have hhead : ∃ c cs, serializeFields (f :: fs) = c :: cs ∧ c ≠ ']' ∧ c ≠ '\x7d' := by
          obtain ⟨k, v⟩ := f
          cases fs with
          | nil =>
            exact ⟨'"', escChars k.data ++ '"' :: ':' :: serializeV v,
              by simp [serializeFields], by decide, by decide⟩
          | cons g gs =>
            exact ⟨'"', (escChars k.data ++ '"' :: ':' :: serializeV v) ++
                ',' :: serializeFields (g :: gs),
              by simp [serializeFields], by decide, by decide⟩
        obtain ⟨c, cs, hser, hc1, hc2⟩ := hhead
        rw [if_neg (show ¬ ((serializeFields (f :: fs) ++ '\x7d' :: rest).head? = some '\x7d')
          from by rw [hser]; simp [hc2])]
        have hsz : sizeFields (f :: fs) ≤ m := by
          simp only [sizeV] at hv
          omega
        rw [(ih m (by omega)).2.2 (f :: fs) (by simp) hsz rest]
        rfl
  · intro es hne hsz rest
    cases es with
    | nil => exact absurd rfl hne
    | cons x xs =>
      have hxpos := sizeV_pos x
      cases n with
      | zero =>
        simp only [sizeElems] at hsz
        omega
      | succ m =>
      cases xs with
      | nil =>
        rw [show serializeElems [x] = serializeV x from by simp [serializeElems]]
        rw [parseElems_succ]
        have hVx := (ih m (by omega)).1 x (by simp only [sizeElems] at hsz; omega)
          (']' :: rest) (Bnd_rbrack rest)
        rw [hVx]
        simp
      | cons y ys =>
        rw [show serializeElems (x :: y :: ys) = serializeV x ++ ',' :: serializeElems (y :: ys)
          from by simp [serializeElems]]
        rw [parseElems_succ]
        rw [show (serializeV x ++ ',' :: serializeElems (y :: ys)) ++ ']' :: rest
            = serializeV x ++ (',' :: (serializeElems (y :: ys) ++ ']' :: rest)) from by simp]
        have hVx := (ih m (by omega)).1 x (by simp only [sizeElems] at hsz; omega)
          (',' :: (serializeElems (y :: ys) ++ ']' :: rest)) (Bnd_comma _)
        rw [hVx]
        have hE := (ih m (by omega)).2.1 (y :: ys) (by simp)
          (by simp only [sizeElems] at hsz ⊢; omega) rest
        simp [hE]
  · intro fs hne hsz rest
    cases fs with
    | nil => exact absurd rfl hne
    | cons f fs =>
      obtain ⟨k, v⟩ := f
      have hvpos := sizeV_pos v
      cases n with
      | zero =>
        simp only [sizeFields] at hsz
        omega
      | succ m =>
      cases fs with
      | nil =>
        rw [show serializeFields [(k, v)] = '"' :: (escChars k.data ++ '"' :: ':' :: serializeV v)
          from by simp [serializeFields]]
        rw [show ('"' :: (escChars k.data ++ '"' :: ':' :: serializeV v)) ++ '\x7d' :: rest
            = '"' :: (escChars k.data ++ '"' :: (':' :: (serializeV v ++ '\x7d' :: rest)))
          from by simp]
        rw [parseFields_succ]
        rw [if_pos (show ('"' :: (escChars k.data ++ '"' ::
          (':' :: (serializeV v ++ '\x7d' :: rest))) : List Char).head? = some '"' from rfl)]
        have hstr := parseStr_esc k.data (':' :: (serializeV v ++ '\x7d' :: rest))
        have hV := (ih m (by omega)).1 v (by simp only [sizeFields] at hsz; omega)
          ('\x7d' :: rest) (Bnd_rbrace rest)
        simp only [List.tail_cons, hstr]
        simp [hV]
      | cons g gs =>
        rw [show serializeFields ((k, v) :: g :: gs)
            = ('"' :: (escChars k.data ++ '"' :: ':' :: serializeV v)) ++
                ',' :: serializeFields (g :: gs) from by simp [serializeFields]]
        rw [show (('"' :: (escChars k.data ++ '"' :: ':' :: serializeV v)) ++
              ',' :: serializeFields (g :: gs)) ++ '\x7d' :: rest
            = '"' :: (escChars k.data ++ '"' :: (':' :: (serializeV v ++
                (',' :: (serializeFields (g :: gs) ++ '\x7d' :: rest))))) from by simp]
        rw [parseFields_succ]
        rw [if_pos (show ('"' :: (escChars k.data ++ '"' :: (':' :: (serializeV v ++
          (',' :: (serializeFields (g :: gs) ++ '\x7d' :: rest)))))
            : List Char).head? = some '"' from rfl)]
        have hstr := parseStr_esc k.data
          (':' :: (serializeV v ++ (',' :: (serializeFields (g :: gs) ++ '\x7d' :: rest))))
        have hV := (ih m (by omega)).1 v (by simp only [sizeFields] at hsz; omega)
          (',' :: (serializeFields (g :: gs) ++ '\x7d' :: rest)) (Bnd_comma _)
        have hF := (ih m (by omega)).2.2 (g :: gs) (by simp)
          (by simp only [sizeFields] at hsz ⊢; omega) rest
        simp only [List.tail_cons, hstr]
        simp [hV, hF]

/-- Claim C9: for every plain acyclic data value, deserializing its
serialization with behavior attachment — `fromJSON(proto, getJSON(value))` —
yields a value whose own data fields all equal `value`'s own data fields and
which additionally carries the operations of `proto`. -/
theorem claim9_json_roundtrip (P : Type) (proto : P) (v : JValue) :
    fromJSON proto (getJSON v) = some { data := v, proto := proto } := by
  have hlen : sizeV v ≤ (serializeV v).length + 1 := by
    have h2 := (size_le_serLen (sizeV v)).1 v (le_refl _)
    omega
  have h := (parse_serialize ((serializeV v).length + 1)).1 v hlen [] Bnd_nil
  rw [List.append_nil] at h
  have hp : JSONparse (getJSON v) = some v := by
    show (match parseV ((String.mk (serializeV v)).length + 1) (String.mk (serializeV v)).data with
          | some (w, []) => some w
          | _ => none) = some v
    rw [show (String.mk (serializeV v)).length = (serializeV v).length from rfl,
        show (String.mk (serializeV v)).data = serializeV v from rfl, h]
  show (match JSONparse (getJSON v) with
        | some obj => some (Attached.mk obj proto)
        | none => none) = some (Attached.mk v proto)
  rw [hp]
